import Mathlib

/-!
Verification development for the CI/CD security-drift detection service.

The JavaScript source is shallowly embedded in Lean:
JavaScript numbers are modelled as rationals (`ℚ`), JSON documents as the
inductive `JsVal`, fallible functions as `Option`-valued functions, and the
per-request handlers as pure functions over their processing outcomes.
`Math.sqrt` (used only by baseline-model training) is modelled as `Real.sqrt`.
Randomly generated UUIDs and wall-clock timestamps are outside the embedding;
the spec itself states determinism only modulo `id` and `timestamp`.
-/

/-! ## Character and string helpers

Lean's built-in `String.toLower`, `String.trim` and string ordering are
defined through well-founded recursion and do not reduce in the kernel, so
the JavaScript string primitives used by the source are modelled by
structurally recursive functions over `List Char`.
-/

/-- Lowercase a single ASCII character (model of JS `toLowerCase` on the
character sets appearing in the source's keyword matching). -/
def lowerChar (c : Char) : Char :=
  if 65 ≤ c.toNat ∧ c.toNat ≤ 90 then Char.ofNat (c.toNat + 32) else c

/-- Lowercase an entire string. -/
def lowerStr (s : String) : String := ⟨s.data.map lowerChar⟩

/-- Whitespace test for the characters JS `trim` removes (ASCII subset). -/
def isWsChar (c : Char) : Bool := c.toNat = 32 ∨ c.toNat = 9 ∨ c.toNat = 10 ∨ c.toNat = 13

/-- Trim leading and trailing whitespace (model of JS `String.prototype.trim`). -/
def trimStr (s : String) : String :=
  ⟨((s.data.dropWhile isWsChar).reverse.dropWhile isWsChar).reverse⟩

/-- Substring test on character lists: does `pat` occur contiguously in `hay`? -/
def containsSub : (hay pat : List Char) → Bool
  | _, [] => true
  | [], _ :: _ => false
  | h :: hs, pat => pat.isPrefixOf (h :: hs) || containsSub hs pat

/-- Model of JS `String.prototype.includes`. -/
def strContains (s pat : String) : Bool := containsSub s.data pat.data

/-- Lexicographic (code-point) comparison of character lists; models the
string comparator used for sorting (`localeCompare` is embedded as
locale-neutral code-point order, which the spec calls for). -/
def lexLe : List Char → List Char → Bool
  | [], _ => true
  | _ :: _, [] => false
  | a :: as, b :: bs =>
    if a.toNat < b.toNat then true
    else if b.toNat < a.toNat then false
    else lexLe as bs

/-- String order used when sorting diff entries by name. -/
def strLe (a b : String) : Bool := lexLe a.data b.data

/-! ## JSON values and JavaScript coercions -/

/-- JSON documents (the open-world inputs of the normalizer). JavaScript
numbers are modelled as rationals; an absent object field models JS
`undefined`. -/
inductive JsVal where
  | null : JsVal
  | bool : Bool → JsVal
  | num : ℚ → JsVal
  | str : String → JsVal
  | arr : List JsVal → JsVal
  | obj : List (String × JsVal) → JsVal

mutual

def JsVal.beq : JsVal → JsVal → Bool
  | .null, .null => true
  | .bool a, .bool b => a == b
  | .num a, .num b => a == b
  | .str a, .str b => a == b
  | .arr a, .arr b => JsVal.beqList a b
  | .obj a, .obj b => JsVal.beqObj a b
  | _, _ => false

def JsVal.beqList : List JsVal → List JsVal → Bool
  | [], [] => true
  | a :: as, b :: bs => JsVal.beq a b && JsVal.beqList as bs
  | _, _ => false

def JsVal.beqObj : List (String × JsVal) → List (String × JsVal) → Bool
  | [], [] => true
  | (k, v) :: as, (l, w) :: bs => k == l && JsVal.beq v w && JsVal.beqObj as bs
  | _, _ => false

end

theorem JsVal.beq_iff_eq_aux :
    ∀ n : ℕ, ∀ a b : JsVal, sizeOf a ≤ n → (JsVal.beq a b = true ↔ a = b) := by
  intro n
  induction n with
  | zero =>
    intro a b h
    exact absurd h (by cases a <;> simp)
  | succ n ih =>
    intro a b hle
    have hlist : ∀ as bs : List JsVal, (∀ x ∈ as, sizeOf x ≤ n) →
        (JsVal.beqList as bs = true ↔ as = bs) := by
      intro as
      induction as with
      | nil => intro bs _; cases bs <;> simp [JsVal.beqList]
      | cons x xs ihx =>
        intro bs hx
        cases bs with
        | nil => simp [JsVal.beqList]
        | cons y ys =>
          have h1 := ih x y (hx x (by simp))
          have h2 := ihx ys (fun z hz => hx z (by simp [hz]))
          simp [JsVal.beqList, h1, h2]
    have hobj : ∀ as bs : List (String × JsVal), (∀ x ∈ as, sizeOf x.2 ≤ n) →
        (JsVal.beqObj as bs = true ↔ as = bs) := by
      intro as
      induction as with
      | nil => intro bs _; cases bs <;> simp [JsVal.beqObj]
      | cons x xs ihx =>
        intro bs hx
        obtain ⟨k, v⟩ := x
        cases bs with
        | nil => simp [JsVal.beqObj]
        | cons y ys =>
          obtain ⟨l, w⟩ := y
          have h1 := ih v w (hx (k, v) (by simp))
          have h2 := ihx ys (fun z hz => hx z (by simp [hz]))
          simp [JsVal.beqObj, h1, h2, and_assoc]
    cases a <;> cases b <;> simp [JsVal.beq]
    case arr.arr as bs =>
      refine hlist as bs (fun x hx => ?_)
      have h1 : sizeOf x < sizeOf as := List.sizeOf_lt_of_mem hx
      have h2 : 1 + sizeOf as ≤ n + 1 := by simpa using hle
      omega
    case obj.obj as bs =>
      refine hobj as bs (fun x hx => ?_)
      have h1 : sizeOf x < sizeOf as := List.sizeOf_lt_of_mem hx
      have h2 : 1 + sizeOf as ≤ n + 1 := by simpa using hle
      have h3 : sizeOf x.2 < sizeOf x := by
        obtain ⟨k, v⟩ := x
        simp
      omega

instance : DecidableEq JsVal := fun a b =>
  decidable_of_iff _ (JsVal.beq_iff_eq_aux (sizeOf a) a b le_rfl)

/-- JavaScript truthiness of a value (an absent field, i.e. `undefined`, is
handled by the `Option` layer at use sites). -/
def truthy : JsVal → Bool
  | .null => false
  | .bool b => b
  | .num q => q ≠ 0
  | .str s => s ≠ ""
  | .arr _ => true
  | .obj _ => true

/-- Last-binding field lookup on a JS object (`JSON.parse` keeps the last of
duplicate keys); any other value has no named fields. -/
def getF : JsVal → String → Option JsVal
  | .obj l, k => ((l.filter (fun p => p.1 = k)).getLast?).map (·.2)
  | _, _ => none

/-- Truthiness of a possibly-absent field. -/
def truthyF (o : Option JsVal) : Bool :=
  match o with
  | some v => truthy v
  | none => false

/-- Decimal digits of a natural number. -/
def natDigits (n : ℕ) : String :=
  ⟨Nat.toDigits 10 n⟩

/-- Decimal string of an integer. -/
def intStr (i : ℤ) : String :=
  if i < 0 then "-" ++ natDigits i.natAbs else natDigits i.natAbs

/-- String form of a JS number. Faithful for integer values (the only
numeric case exercised by the theorems below); a non-integral rational is
rendered as `num/den`, standing in for JS's decimal rendering. -/
def jsNumToString (q : ℚ) : String :=
  if q.den = 1 then intStr q.num else intStr q.num ++ "/" ++ natDigits q.den

mutual

/-- Model of the JS `String(...)` coercion. -/
def jsString : JsVal → String
  | .null => "null"
  | .bool b => cond b "true" "false"
  | .num q => jsNumToString q
  | .str s => s
  | .arr l => jsStringList l
  | .obj _ => "[object Object]"

/-- Array-to-string: elements joined with commas, `null` rendering as the
empty string (JS `Array.prototype.toString`). -/
def jsStringList : List JsVal → String
  | [] => ""
  | [.null] => ""
  | [v] => jsString v
  | .null :: rest => "," ++ jsStringList rest
  | v :: rest => jsString v ++ "," ++ jsStringList rest

end

/-- Parse a decimal numeral string to a rational: optional sign, integer
digits, optional fraction. Models JS `Number(string)` on finite decimal
literals; anything else (scientific notation, `Infinity`, garbage) is `none`,
standing for `NaN`. The empty or all-whitespace string is `0`. -/
def parseDecimal (s : String) : Option ℚ :=
  let chars := (trimStr s).data
  if chars = [] then some 0
  else
    let core : List Char → Option ℚ := fun cs =>
      let intPart := cs.takeWhile (·.isDigit)
      let rest := cs.dropWhile (·.isDigit)
      match rest with
      | [] =>
        if intPart = [] then none
        else some ((intPart.foldl (fun a c => a * 10 + (c.toNat - 48)) 0 : ℕ) : ℚ)
      | '.' :: fracs =>
        if fracs.all (·.isDigit) ∧ ¬(intPart = [] ∧ fracs = []) then
          let ip : ℕ := intPart.foldl (fun a c => a * 10 + (c.toNat - 48)) 0
          let fp : ℕ := fracs.foldl (fun a c => a * 10 + (c.toNat - 48)) 0
          some ((ip : ℚ) + (fp : ℚ) / (10 : ℚ) ^ fracs.length)
        else none
      | _ => none
    match chars with
    | '-' :: rest => (core rest).map (fun q => -q)
    | '+' :: rest => core rest
    | _ => core chars

/-- Model of the JS `Number(...)` coercion; `none` stands for `NaN`.
Objects and arrays convert through their string form. -/
def jsNumber : JsVal → Option ℚ
  | .null => some 0
  | .bool b => some (cond b 1 0)
  | .num q => some q
  | .str s => parseDecimal s
  | .arr l => parseDecimal (jsString (.arr l))
  | .obj l => parseDecimal (jsString (.obj l))

/-- First present-and-truthy value in a chain of optional fields: models a
JS `a || b || ...` chain over possibly-undefined operands. -/
def jsOrChain : List (Option JsVal) → Option JsVal
  | [] => none
  | o :: rest =>
    match o with
    | some v => if truthy v then some v else jsOrChain rest
    | none => jsOrChain rest

/-- Model of `Object.keys`: own enumerable keys of a value (index strings
for arrays and strings, property names for objects). -/
def jsKeys : JsVal → List String
  | .obj l => l.map (·.1)
  | .arr l => (List.range l.length).map (fun i => natDigits i)
  | .str s => (List.range s.data.length).map (fun i => natDigits i)
  | _ => []

/-- Model of the values enumerated by `Object.keys(x).forEach(k => x[k])`. -/
def jsValuesOf : JsVal → List JsVal
  | .obj l => l.map (·.2)
  | .arr l => l
  | .str s => s.data.map (fun c => .str ⟨[c]⟩)
  | _ => []

/-- First-occurrence deduplication: the semantics of `[...new Set(xs)]`
(reference identity of equal-looking objects is modelled as structural
equality). -/
def jsDedup {α : Type} [DecidableEq α] (l : List α) : List α :=
  l.foldl (fun acc a => if a ∈ acc then acc else acc ++ [a]) []

/-! ## Universal log parser (src: parsers/universalLogParser.js) -/

/-- Security-related keywords for step categorization. -/
def SECURITY_KEYWORDS : List String :=
  ["security", "scan", "audit", "test", "check", "verify", "validate",
   "dependency-check", "sast", "dast", "secrets", "token", "key",
   "vulnerability", "compliance", "policy"]

/-- Step type keywords mapping (iterated in insertion order). -/
def STEP_TYPE_KEYWORDS : List (String × List String) :=
  [("security", ["security", "scan", "audit", "sast", "dast", "vulnerability", "compliance"]),
   ("build", ["build", "compile", "make", "docker"]),
   ("test", ["test", "unit", "integration", "e2e"]),
   ("deploy", ["deploy", "release", "publish", "push"]),
   ("approval", ["approval", "manual", "gate", "review"])]

/-- Normalize step name: lowercase then trim (`name.toLowerCase().trim()`).
The source's non-string guard is unnecessary here because every call site
passes a string. -/
def normalizeStepName (name : String) : String := trimStr (lowerStr name)

/-- Check if a step is security-related based on its name. -/
def isSecurityStep (stepName : String) : Bool :=
  SECURITY_KEYWORDS.any (fun keyword => strContains (normalizeStepName stepName) keyword)

/-- Determine step type from name: first keyword class that matches, else
`other`. -/
def getStepType (stepName : String) : String :=
  match STEP_TYPE_KEYWORDS.find? (fun p =>
    p.2.any (fun keyword => strContains (normalizeStepName stepName) keyword)) with
  | some p => p.1
  | none => "other"

/-- Word character in the sense of the regex `\b` boundary (`[A-Za-z0-9_]`). -/
def isWordChar (c : Char) : Bool :=
  (48 ≤ c.toNat ∧ c.toNat ≤ 57) ∨ (65 ≤ c.toNat ∧ c.toNat ≤ 90) ∨
  (97 ≤ c.toNat ∧ c.toNat ≤ 122) ∨ c.toNat = 95

/-- Case-insensitive check that the (lowercase) pattern starts the text. -/
def ciPrefixAt : List Char → List Char → Bool
  | [], _ => true
  | _ :: _, [] => false
  | p :: ps, c :: cs => (p = lowerChar c) && ciPrefixAt ps cs

/-- Match one alternative of `/\b(read|write|admin)\b/i` at the current
position, given the preceding character (if any). -/
def tokenMatchAt (tok : List Char) (prev : Option Char) (hay : List Char) : Bool :=
  ciPrefixAt tok hay &&
  (match prev with | none => true | some c => !(isWordChar c)) &&
  (match hay.drop tok.length with | [] => true | c :: _ => !(isWordChar c))

/-- Scan for the first (leftmost) standalone `read`/`write`/`admin` token,
trying the regex alternatives in order at each position; returns the
lowercased capture. -/
def findPermTokenAux : (hay : List Char) → (prev : Option Char) → Option String
  | [], _ => none
  | c :: cs, prev =>
    match (["read", "write", "admin"].find? (fun t => tokenMatchAt t.data prev (c :: cs))) with
    | some t => some t
    | none => findPermTokenAux cs (some c)

/-- Model of `value.match(/\b(read|write|admin)\b/i)` followed by
`match[1].toLowerCase()`. -/
def findPermToken (s : String) : Option String := findPermTokenAux s.data none

/-- Extract permissions from a step configuration, from `permissions`
(array / GitHub-style object / string), `scopes[]`, `access[]` and
permission tokens inside `env` values; duplicates removed via a `Set`. -/
def extractPermissions (step : JsVal) : List JsVal :=
  let fromPermissions : List JsVal :=
    match getF step "permissions" with
    | some v =>
      if truthy v then
        match v with
        | .arr l => l
        | .obj l => l.filterMap (fun kv =>
            match kv.2 with
            | .bool true => some (JsVal.str kv.1)
            | .str s => if s = "true" then some (JsVal.str kv.1) else none
            | _ => none)
        | .str s => [JsVal.str s]
        | _ => []
      else []
    | none => []
  let fromScopes : List JsVal :=
    match getF step "scopes" with
    | some (.arr l) => l
    | _ => []
  let fromAccess : List JsVal :=
    match getF step "access" with
    | some (.arr l) => l
    | _ => []
  let fromEnv : List JsVal :=
    match getF step "env" with
    | some v =>
      if truthy v then
        (jsValuesOf v).filterMap (fun ev =>
          match ev with
          | .str s =>
            if strContains s "read" || strContains s "write" || strContains s "admin" then
              (findPermToken s).map (fun t => JsVal.str t)
            else none
          | _ => none)
      else []
    | none => []
  jsDedup (fromPermissions ++ fromScopes ++ fromAccess ++ fromEnv)

/-- Model of the template-literal fragment `${step.f || ''}`. -/
def textField (step : JsVal) (f : String) : String :=
  match getF step f with
  | some v => if truthy v then jsString v else ""
  | none => ""

/-- Check if a step uses secrets (env keys, input keys, name/description/id
text, or script/run/command bodies mentioning secret material). -/
def usesSecrets (step : JsVal) : Bool :=
  let envHit : Bool :=
    match getF step "env" with
    | some v =>
      truthy v &&
      (jsKeys v).any (fun k =>
        let lk := lowerStr k
        strContains lk "secret" || strContains lk "token" || strContains lk "key" ||
          strContains lk "password")
    | none => false
  let inputsHit : Bool :=
    match getF step "inputs" with
    | some v =>
      truthy v &&
      (jsKeys v).any (fun k =>
        let lk := lowerStr k
        strContains lk "secret" || strContains lk "token" || strContains lk "key")
    | none => false
  let stepText := lowerStr
    (textField step "name" ++ " " ++ textField step "description" ++ " " ++ textField step "id")
  let textHit := strContains stepText "secret" || strContains stepText "token" ||
    strContains stepText "key"
  let scriptGuard := truthyF (getF step "script") || truthyF (getF step "run") ||
    truthyF (getF step "command")
  let scriptText := lowerStr
    (textField step "script" ++ " " ++ textField step "run" ++ " " ++ textField step "command")
  let scriptHit := scriptGuard && (strContains scriptText "secret" ||
    strContains scriptText "token" || strContains scriptText "key")
  envHit || inputsHit || textHit || scriptHit

/-- Check if a step requires manual approval. -/
def requiresApproval (step : JsVal) : Bool :=
  let stepText := lowerStr
    (textField step "name" ++ " " ++ textField step "description" ++ " " ++
     textField step "type" ++ " " ++ textField step "id")
  strContains stepText "approval" || strContains stepText "manual" ||
    strContains stepText "gate" || strContains stepText "review" ||
    decide (getF step "type" = some (JsVal.str "approval")) ||
    decide (getF step "kind" = some (JsVal.str "approval"))

/-- Detect CI/CD format from the JSON structure (first match wins). -/
def detectFormat (json : JsVal) : String :=
  match json with
  | .arr _ | .obj _ =>
    if truthyF (getF json "workflow") || truthyF (getF json "workflow_run") ||
        (match getF json "jobs" with | some (.arr _) => true | _ => false) then
      "github-actions"
    else if truthyF (getF json "stages") || truthyF (getF json "before_script") ||
        truthyF (getF json "after_script") || truthyF (getF json "image") ||
        truthyF (getF json "services") then
      "gitlab-ci"
    else if (match getF json "stages" with
        | some (.arr (h :: _)) => truthy h && truthyF (getF h "steps")
        | _ => false) then
      "jenkins"
    else if (match getF json "stages" with
        | some (.arr (h :: _)) => truthy h && (truthyF (getF h "jobs") || truthyF (getF h "phases"))
        | _ => false) then
      "azure-devops"
    else if (match getF json "jobs" with | some (.obj _) => true | _ => false) then
      "circleci"
    else if (match getF json "steps" with | some (.arr _) => true | _ => false) then
      "standard"
    else "generic"
  | _ => "generic"

/-- Normalized step produced by the parser. `executionOrder` is the result
of the `Number(...)` coercion, `none` standing for `NaN`; `permissions` keeps
the raw values `extractPermissions` collected. -/
structure NormStep where
  name : String
  type : String
  executionOrder : Option ℚ
  status : String
  permissions : List JsVal
  security : Bool
  secrets : Bool
  approval : Bool
deriving DecidableEq

/-- Normalize a raw step to the standard format; non-object input yields
`none` (the caller drops it). -/
def normalizeStep (step : JsVal) (index : ℕ) : Option NormStep :=
  match step with
  | .arr _ | .obj _ =>
    let stepNameRaw : JsVal :=
      (jsOrChain [getF step "name", getF step "id", getF step "step", getF step "action",
        getF step "task", getF step "label", getF step "job"]).getD
        (.str ("step-" ++ natDigits (index + 1)))
    let stepTypeRaw : JsVal :=
      (jsOrChain [getF step "type", getF step "category", getF step "kind"]).getD
        (.str (getStepType (jsString stepNameRaw)))
    let executionOrder : Option ℚ :=
      match (getF step "executionOrder") <|> (getF step "order") <|>
        (getF step "index") <|> (getF step "run_number") with
      | some v => jsNumber v
      | none => some ((index : ℚ) + 1)
    let statusRaw : JsVal :=
      (jsOrChain [getF step "status", getF step "result", getF step "conclusion",
        getF step "state"]).getD (.str "unknown")
    some {
      name := jsString stepNameRaw
      type := jsString stepTypeRaw
      executionOrder := executionOrder
      status := jsString statusRaw
      permissions := extractPermissions step
      security :=
        match getF step "security" with
        | some v => truthy v
        | none => isSecurityStep (jsString stepNameRaw)
      secrets :=
        match getF step "secrets" with
        | some v => truthy v
        | none => usesSecrets step
      approval :=
        match getF step "approval" with
        | some v => truthy v
        | none => requiresApproval step }
  | _ => none

/-! ## Feature extractor (src: features/featureExtractor.js) -/

/-- Canonical step as consumed by the feature extractor: the data-model
shape of parsed steps (string permissions, numeric execution order). -/
structure CStep where
  name : String
  type : String
  executionOrder : ℚ
  permissions : List String
  security : Bool
  secrets : Bool
  approval : Bool
deriving DecidableEq

/-- Feature names, in the frozen index order (`getFeatureNames`). -/
def featureNames : List String :=
  ["securityScanCount", "securityStepCount", "readPermissionCount",
   "writePermissionCount", "adminPermissionCount", "secretsUsageCount",
   "approvalStepCount", "avgSecurityStepOrder", "permissionEscalation",
   "totalStepCount", "securityStepRatio", "normalizedFirstSecurityStep",
   "normalizedLastSecurityStep", "secretsWithWriteCount", "stepsWithAdminCount",
   "securityBeforeDeploy", "normalizedAvgStepOrder"]

/-- Model of `Math.min(...)` over a list known to be non-empty at its call
sites (the empty case is unreachable in the source). -/
def jsMinList : List ℚ → ℚ
  | [] => 0
  | h :: t => t.foldl min h

/-- Model of `Math.max(...)` over a non-empty list. -/
def jsMaxList : List ℚ → ℚ
  | [] => 0
  | h :: t => t.foldl max h

/-- Model of `Array.prototype.includes` on the string permission lists
(SameValueZero equality). -/
def hasPerm (perms : List String) (p : String) : Bool :=
  perms.any (fun x => decide (x = p))

/-- Check whether a list of permission levels ever strictly increases
between adjacent entries. -/
def adjacentIncrease : List ℕ → Bool
  | a :: b :: rest => if a < b then true else adjacentIncrease (b :: rest)
  | _ => false

/-- Detect permission escalation: per-step levels (admin 3, write 2,
read 1, none 0) strictly increase somewhere; fewer than 2 steps never
escalate. -/
def detectPermissionEscalation (steps : List CStep) : Bool :=
  if steps.length < 2 then false
  else
    let permissionLevels := steps.map (fun step =>
      if hasPerm step.permissions "admin" then 3
      else if hasPerm step.permissions "write" then 2
      else if hasPerm step.permissions "read" then 1
      else (0 : ℕ))
    adjacentIncrease permissionLevels

/-- Extract the 17 numeric features from the parsed steps, in the frozen
index order. -/
def extractFeatures (steps : List CStep) : List ℚ :=
  let securityScanCount : ℚ := ((steps.filter (fun step =>
    step.security && (strContains (normalizeStepName step.name) "scan" ||
      strContains (normalizeStepName step.name) "check"))).length : ℚ)
  let securityStepCount : ℚ := ((steps.filter (fun step => step.security)).length : ℚ)
  let readPermissionCount : ℚ :=
    ((steps.filter (fun step => hasPerm step.permissions "read")).length : ℚ)
  let writePermissionCount : ℚ :=
    ((steps.filter (fun step => hasPerm step.permissions "write")).length : ℚ)
  let adminPermissionCount : ℚ :=
    ((steps.filter (fun step => hasPerm step.permissions "admin")).length : ℚ)
  let secretsUsageCount : ℚ := ((steps.filter (fun step => step.secrets)).length : ℚ)
  let approvalStepCount : ℚ := ((steps.filter (fun step => step.approval)).length : ℚ)
  let securitySteps := steps.filter (fun step => step.security)
  let avgSecurityStepOrder : ℚ :=
    if securitySteps.length > 0 then
      ((securitySteps.map (·.executionOrder)).sum) / (securitySteps.length : ℚ)
    else 0
  let permissionEscalation : ℚ := if detectPermissionEscalation steps then 1 else 0
  let totalStepCount : ℚ := (steps.length : ℚ)
  let securityStepRatio : ℚ :=
    if totalStepCount > 0 then securityStepCount / totalStepCount else 0
  let firstSecurityStep : ℚ :=
    if securitySteps.length > 0 then jsMinList (securitySteps.map (·.executionOrder)) else 0
  let normalizedFirstSecurityStep : ℚ :=
    if totalStepCount > 0 then firstSecurityStep / totalStepCount else 0
  let lastSecurityStep : ℚ :=
    if securitySteps.length > 0 then jsMaxList (securitySteps.map (·.executionOrder)) else 0
  let normalizedLastSecurityStep : ℚ :=
    if totalStepCount > 0 then lastSecurityStep / totalStepCount else 0
  let secretsWithWriteCount : ℚ := ((steps.filter (fun step =>
    step.secrets && hasPerm step.permissions "write")).length : ℚ)
  let stepsWithAdminCount : ℚ := adminPermissionCount
  let deploySteps := steps.filter (fun step => decide (step.type = "deploy"))
  let firstDeployOrder : ℚ :=
    if deploySteps.length > 0 then jsMinList (deploySteps.map (·.executionOrder))
    else totalStepCount + 1
  let securityBeforeDeploy : ℚ := ((securitySteps.filter (fun step =>
    decide (step.executionOrder < firstDeployOrder))).length : ℚ)
  let avgStepOrder : ℚ :=
    if totalStepCount > 0 then ((steps.map (·.executionOrder)).sum) / totalStepCount else 0
  let normalizedAvgStepOrder : ℚ :=
    if totalStepCount > 0 then avgStepOrder / totalStepCount else 0
  [securityScanCount, securityStepCount, readPermissionCount, writePermissionCount,
   adminPermissionCount, secretsUsageCount, approvalStepCount, avgSecurityStepOrder,
   permissionEscalation, totalStepCount, securityStepRatio, normalizedFirstSecurityStep,
   normalizedLastSecurityStep, secretsWithWriteCount, stepsWithAdminCount,
   securityBeforeDeploy, normalizedAvgStepOrder]

/-! ## Baseline model (src: model/driftModel.js) -/

/-- JavaScript object property lookup on keyed data (last binding wins). -/
def jsGet {α : Type} (l : List (String × α)) (k : String) : Option α :=
  ((l.filter (fun p => p.1 = k)).getLast?).map (·.2)

/-- Mean of a list of numbers (`calculateMean`). -/
def calculateMean (values : List ℚ) : ℚ :=
  if values.length = 0 then 0 else values.sum / (values.length : ℚ)

/-- Population standard deviation with the source's edge cases: empty list
0, single sample 0.1, otherwise the square root of the population variance
(`Math.sqrt` is modelled as `Real.sqrt`). The call sites always pass the
precomputed mean. -/
noncomputable def calculateStdDev (values : List ℚ) (mean : ℚ) : ℝ :=
  if values.length = 0 then 0
  else if values.length = 1 then 1 / 10
  else Real.sqrt (((values.map (fun val => (val - mean) ^ 2)).sum / (values.length : ℚ) : ℚ) : ℝ)

/-- Per-feature statistics recorded by training. -/
structure TrainedFeature where
  mean : ℚ
  stdDev : ℝ
  count : ℕ
  min : ℚ
  max : ℚ

/-- Trained baseline model (`trainedAt`, a wall-clock timestamp, is outside
the embedding). -/
structure TrainedModel where
  features : List (String × TrainedFeature)
  baselineRunCount : ℕ
  pipelineName : String
  version : String

/-- Train a baseline model from feature vectors: `none` models the throws
for an empty list or a vector failing `validateFeatures` (wrong length;
the number-typed entries are finite by construction in `ℚ`). -/
noncomputable def trainBaselineModel (featureVectors : List (List ℚ))
    (pipelineName : Option String) : Option TrainedModel :=
  if featureVectors.length = 0 then none
  else if ¬ (featureVectors.all (fun v => v.length = featureNames.length)) then none
  else some {
    features := featureNames.enum.map (fun p =>
      let values := featureVectors.map (fun vector => vector.getD p.1 0)
      let mean := calculateMean values
      let stdDev := calculateStdDev values mean
      let adjustedStdDev : ℝ := if stdDev = 0 then 1 / 10 else stdDev
      (p.2, { mean := mean, stdDev := adjustedStdDev, count := values.length,
              min := jsMinList values, max := jsMaxList values }))
    baselineRunCount := featureVectors.length
    pipelineName := (match pipelineName with
      | some s => if s ≠ "" then s else "default"
      | none => "default")
    version := "1.0.0" }

/-! ## Drift detector (src: detector/driftDetector.js) -/

/-- Feature weights for drift score calculation. -/
def FEATURE_WEIGHTS : List (String × ℚ) :=
  [("securityScanCount", 15/10), ("securityStepCount", 14/10),
   ("readPermissionCount", 8/10), ("writePermissionCount", 12/10),
   ("adminPermissionCount", 2), ("secretsUsageCount", 18/10),
   ("approvalStepCount", 13/10), ("avgSecurityStepOrder", 1),
   ("permissionEscalation", 25/10), ("totalStepCount", 5/10),
   ("securityStepRatio", 16/10), ("normalizedFirstSecurityStep", 11/10),
   ("normalizedLastSecurityStep", 11/10), ("secretsWithWriteCount", 22/10),
   ("stepsWithAdminCount", 2), ("securityBeforeDeploy", 17/10),
   ("normalizedAvgStepOrder", 9/10)]

/-- Per-feature mean and standard deviation as read from a loaded model. -/
structure FeatureStat where
  mean : ℚ
  stdDev : ℚ

/-- Baseline model as consumed by the detector: the `features` keyed data
of the model file (numeric fields modelled in `ℚ`). -/
structure BaselineModel where
  features : List (String × FeatureStat)

/-- Validate model structure: every expected feature present with numeric
statistics and a non-negative standard deviation. -/
def validateModel (model : BaselineModel) : Bool :=
  featureNames.all (fun featureName =>
    match jsGet model.features featureName with
    | some feature => decide (0 ≤ feature.stdDev)
    | none => false)

/-- Calculate the z-score for a feature value. -/
def calculateZScore (value mean stdDev : ℚ) : ℚ :=
  if stdDev = 0 ∨ stdDev < 1/10 then
    if |value - mean| < 1/100 then 0
    else (value - mean) / (1/10)
  else (value - mean) / stdDev

/-- Model of JS `Math.round` (half-up, i.e. toward +∞ on ties). -/
def jsRound (q : ℚ) : ℤ := ⌊q + 1/2⌋

/-- Model of `Math.round(x * 100) / 100`. -/
def jsRound2 (q : ℚ) : ℚ := ((jsRound (q * 100) : ℚ)) / 100

/-- Calculate the drift score from the per-feature z-scores: weighted mean
of |z| over the 17 features, scaled by 20, clipped to [0, 100] and rounded
to 2 decimals. -/
def calculateDriftScore (zScores : List (String × ℚ)) : ℚ :=
  let acc := featureNames.foldl (fun (acc : ℚ × ℚ) featureName =>
    let zScore := (jsGet zScores featureName).getD 0
    let weight := (jsGet FEATURE_WEIGHTS featureName).getD 1
    (acc.1 + |zScore| * weight, acc.2 + weight)) (0, 0)
  if acc.2 = 0 then 0
  else jsRound2 (min 100 (max 0 (acc.1 / acc.2 * 20)))

/-- Determine risk level from drift score. -/
def calculateRiskLevel (driftScore : ℚ) : String :=
  if driftScore ≤ 30 then "low"
  else if driftScore ≤ 50 then "medium"
  else if driftScore ≤ 70 then "high"
  else "critical"

/-- Left-pad with zeros to the requested width. -/
def padZeros (width : ℕ) (s : String) : String :=
  ⟨List.replicate (width - s.data.length) '0'⟩ ++ s

/-- Model of JS `Number.prototype.toFixed`: sign of the original value,
then the magnitude rounded half-up to `digits` decimal places. -/
def ratToFixed (digits : ℕ) (q : ℚ) : String :=
  let sign : String := if q < 0 then "-" else ""
  let scaled : ℕ := (⌊|q| * (10 : ℚ) ^ digits + 1/2⌋).toNat
  let ip := scaled / 10 ^ digits
  let fp := scaled % 10 ^ digits
  if digits = 0 then sign ++ natDigits ip
  else sign ++ natDigits ip ++ "." ++ padZeros digits (natDigits fp)

/-- Curated per-feature descriptors used by explanations. -/
def featureDescriptions : List (String × String) :=
  [("securityScanCount", "security scan steps"),
   ("securityStepCount", "security-related steps"),
   ("readPermissionCount", "read permission steps"),
   ("writePermissionCount", "write permission steps"),
   ("adminPermissionCount", "admin permission steps"),
   ("secretsUsageCount", "steps using secrets"),
   ("approvalStepCount", "manual approval steps"),
   ("avgSecurityStepOrder", "average execution order of security steps"),
   ("permissionEscalation", "permission escalation detected"),
   ("totalStepCount", "total pipeline steps"),
   ("securityStepRatio", "ratio of security steps"),
   ("normalizedFirstSecurityStep", "first security step position"),
   ("normalizedLastSecurityStep", "last security step position"),
   ("secretsWithWriteCount", "steps with secrets and write permissions"),
   ("stepsWithAdminCount", "steps with admin permissions"),
   ("securityBeforeDeploy", "security steps before deployment"),
   ("normalizedAvgStepOrder", "average step execution order")]

/-- Generate a human-readable explanation for a feature deviation. -/
def generateFeatureExplanation (featureName : String)
    (zScore currentValue baselineMean : ℚ) : String :=
  let absZScore := |zScore|
  let direction := if zScore > 0 then "increased" else "decreased"
  let magnitude :=
    if absZScore < 5/2 then "slightly"
    else if absZScore < 7/2 then "moderately"
    else if absZScore < 9/2 then "significantly" else "dramatically"
  let description := (jsGet featureDescriptions featureName).getD featureName
  let change := |currentValue - baselineMean|
  description ++ " " ++ direction ++ " " ++ magnitude ++ " (" ++
    ratToFixed 2 currentValue ++ " vs baseline " ++ ratToFixed 2 baselineMean ++
    ", change: " ++ ratToFixed 2 change ++ ")"

/-- Security issue. The source attaches a fresh `randomUUID()` to each
issue; ids carry no information consumed anywhere, so they are embedded as
a fixed placeholder. -/
structure SecurityIssue where
  id : String
  type : String
  severity : String
  description : String
  step : String
deriving DecidableEq

/-- Placeholder for `randomUUID()`. -/
def uuidPlaceholder : String := "00000000-0000-0000-0000-000000000000"

/-- Map a feature deviation to a security issue, `none` below the
significance threshold or when the feature's trigger direction is not met.
The three severity ladders shared by the source's mapping table are
factored into local definitions. -/
def mapToSecurityIssue (featureName : String)
    (zScore currentValue baselineMean : ℚ) : Option SecurityIssue :=
  let absZScore := |zScore|
  if absZScore < 3/2 then none
  else
    let direction := if zScore < 0 then "decreased" else "increased"
    let isDecrease : Bool := decide (zScore < 0)
    let sevLMHC :=
      if absZScore < 5/2 then "low"
      else if absZScore < 7/2 then "medium"
      else if absZScore < 9/2 then "high" else "critical"
    let sevMHC :=
      if absZScore < 5/2 then "medium"
      else if absZScore < 7/2 then "high" else "critical"
    let sevLMH :=
      if absZScore < 5/2 then "low"
      else if absZScore < 7/2 then "medium" else "high"
    match featureName with
    | "securityScanCount" =>
      if isDecrease then
        some ⟨uuidPlaceholder, "security_scan_removed", sevLMHC,
          "Security scan steps " ++ direction ++ " from " ++ ratToFixed 1 baselineMean ++
            " to " ++ ratToFixed 1 currentValue, featureName⟩
      else none
    | "securityStepCount" =>
      if isDecrease then
        some ⟨uuidPlaceholder, "security_scan_removed", sevLMHC,
          "Security-related steps " ++ direction ++ " from " ++ ratToFixed 1 baselineMean ++
            " to " ++ ratToFixed 1 currentValue, featureName⟩
      else none
    | "adminPermissionCount" =>
      if !isDecrease then
        some ⟨uuidPlaceholder, "permission_escalation", sevMHC,
          "Admin permission steps " ++ direction ++ " from " ++ ratToFixed 1 baselineMean ++
            " to " ++ ratToFixed 1 currentValue, featureName⟩
      else none
    | "permissionEscalation" =>
      if !isDecrease then
        some ⟨uuidPlaceholder, "permission_escalation", "high",
          "Permission escalation pattern detected in pipeline steps", featureName⟩
      else none
    | "secretsUsageCount" =>
      some ⟨uuidPlaceholder, "secrets_exposure", sevLMHC,
        "Secrets usage " ++ direction ++ " from " ++ ratToFixed 1 baselineMean ++
          " to " ++ ratToFixed 1 currentValue, featureName⟩
    | "secretsWithWriteCount" =>
      if !isDecrease then
        some ⟨uuidPlaceholder, "secrets_exposure", sevMHC,
          "Steps with secrets and write permissions " ++ direction ++ " from " ++
            ratToFixed 1 baselineMean ++ " to " ++ ratToFixed 1 currentValue, featureName⟩
      else none
    | "approvalStepCount" =>
      if isDecrease then
        some ⟨uuidPlaceholder, "approval_bypassed", sevLMHC,
          "Manual approval steps " ++ direction ++ " from " ++ ratToFixed 1 baselineMean ++
            " to " ++ ratToFixed 1 currentValue, featureName⟩
      else none
    | "securityBeforeDeploy" =>
      if isDecrease then
        some ⟨uuidPlaceholder, "execution_order_changed", sevLMH,
          "Security steps before deployment " ++ direction ++ " from " ++
            ratToFixed 1 baselineMean ++ " to " ++ ratToFixed 1 currentValue, featureName⟩
      else none
    | "normalizedFirstSecurityStep" =>
      if !isDecrease then
        some ⟨uuidPlaceholder, "execution_order_changed", sevLMH,
          "First security step position changed (" ++ ratToFixed 3 currentValue ++
            " vs baseline " ++ ratToFixed 3 baselineMean ++ ")", featureName⟩
      else none
    | "securityStepRatio" =>
      if isDecrease then
        some ⟨uuidPlaceholder, "security_scan_removed", sevLMHC,
          "Security step ratio " ++ direction ++ " from " ++ ratToFixed 3 baselineMean ++
            " to " ++ ratToFixed 3 currentValue, featureName⟩
      else none
    | _ => none

/-- Drift analysis result (the freshly generated `id` is a placeholder and
the wall-clock `timestamp` is outside the embedding). -/
structure DriftAnalysis where
  id : String
  pipelineName : String
  driftScore : ℚ
  riskLevel : String
  issues : List SecurityIssue
  explanations : List String
  zScores : List (String × ℚ)
  featureVector : List ℚ

/-- Detect drift in a new pipeline run: `none` models the throws for an
invalid feature vector (`validateFeatures`: wrong length; `ℚ` entries are
finite by construction) or an invalid model. The source's single loop over
the features is embedded as one pass per produced collection. -/
def detectDrift (featureVector : List ℚ) (pipelineName : Option String)
    (model : BaselineModel) : Option DriftAnalysis :=
  if featureVector.length ≠ featureNames.length then none
  else if ¬ (validateModel model) then none
  else
    let zScores : List (String × ℚ) := featureNames.enum.filterMap (fun p =>
      match jsGet model.features p.2 with
      | some bf => some (p.2, calculateZScore (featureVector.getD p.1 0) bf.mean bf.stdDev)
      | none => none)
    let explanations : List String := featureNames.enum.filterMap (fun p =>
      match jsGet model.features p.2 with
      | some bf =>
        let zScore := calculateZScore (featureVector.getD p.1 0) bf.mean bf.stdDev
        if |zScore| ≥ 3/2 then
          some (generateFeatureExplanation p.2 zScore (featureVector.getD p.1 0) bf.mean)
        else none
      | none => none)
    let securityIssues : List SecurityIssue := featureNames.enum.filterMap (fun p =>
      match jsGet model.features p.2 with
      | some bf =>
        mapToSecurityIssue p.2 (calculateZScore (featureVector.getD p.1 0) bf.mean bf.stdDev)
          (featureVector.getD p.1 0) bf.mean
      | none => none)
    let driftScore := calculateDriftScore zScores
    some {
      id := uuidPlaceholder
      pipelineName := (match pipelineName with
        | some s => if s ≠ "" then s else "unknown"
        | none => "unknown")
      driftScore := driftScore
      riskLevel := calculateRiskLevel driftScore
      issues := securityIssues
      explanations := explanations
      zScores := zScores
      featureVector := featureVector }

/-! ## Report generator (src: report/reportGenerator.js) -/

/-- Strict lexicographic (code-point) comparison, modelling JS `<` on
strings. -/
def lexLt : List Char → List Char → Bool
  | [], [] => false
  | [], _ :: _ => true
  | _ :: _, [] => false
  | a :: as, b :: bs =>
    if a.toNat < b.toNat then true
    else if b.toNat < a.toNat then false
    else lexLt as bs

/-- JS `<` on strings. -/
def strLt (a b : String) : Bool := lexLt a.data b.data

/-- Lookup in a `Map` built by inserting every step under its name; a later
step with the same name overwrites an earlier one. -/
def stepMapGet (steps : List CStep) (name : String) : Option CStep :=
  (steps.filter (fun s => s.name = name)).getLast?

/-- Per-step change test for steps present on both sides: permissions
(compared in the source by `JSON.stringify`, which on string arrays is
equality of the lists), `security`, `secrets` or `approval` differ. -/
def stepModified (baselineStep currentStep : CStep) : Bool :=
  decide (baselineStep.permissions ≠ currentStep.permissions) ||
  (baselineStep.security != currentStep.security) ||
  (baselineStep.secrets != currentStep.secrets) ||
  (baselineStep.approval != currentStep.approval)

/-- Entry of the pipeline comparison. -/
structure DiffEntry where
  name : String
  status : String
  security : Bool
deriving DecidableEq

/-- The deduplicated union of step names of both sides, in first-occurrence
order (`new Set([...baseline names, ...current names])`). -/
def diffAllNames (baselineSteps currentSteps : List CStep) : List String :=
  jsDedup (baselineSteps.map (fun s => s.name) ++ currentSteps.map (fun s => s.name))

/-- The baseline-side entry the comparison loop pushes for one step name. -/
def baselineEntryFor (baselineSteps currentSteps : List CStep)
    (stepName : String) : Option DiffEntry :=
  match stepMapGet baselineSteps stepName with
  | some baselineStep =>
    match stepMapGet currentSteps stepName with
    | some _ =>
      -- the baseline side reports 'unchanged' even when the current side
      -- is modified (explicit in the source)
      some ⟨stepName, "unchanged", baselineStep.security⟩
    | none => some ⟨stepName, "removed", baselineStep.security⟩
  | none => none

/-- The current-side entry the comparison loop pushes for one step name. -/
def currentEntryFor (baselineSteps currentSteps : List CStep)
    (stepName : String) : Option DiffEntry :=
  match stepMapGet currentSteps stepName with
  | some currentStep =>
    match stepMapGet baselineSteps stepName with
    | some baselineStep =>
      some ⟨stepName,
        if stepModified baselineStep currentStep then "modified" else "unchanged",
        currentStep.security⟩
    | none => some ⟨stepName, "added", currentStep.security⟩
  | none => none

/-- Compare baseline and current pipeline steps, keyed by step name; both
result lists are sorted by name. The source's single `forEach` over the
name set pushes onto the two arrays independently, embedded here as one
`filterMap` per side over the same name list. -/
def generatePipelineComparison (baselineSteps currentSteps : List CStep) :
    List DiffEntry × List DiffEntry :=
  ((diffAllNames baselineSteps currentSteps).filterMap
      (baselineEntryFor baselineSteps currentSteps)
    |>.mergeSort (fun a b => strLe a.name b.name),
   (diffAllNames baselineSteps currentSteps).filterMap
      (currentEntryFor baselineSteps currentSteps)
    |>.mergeSort (fun a b => strLe a.name b.name))

/-- Map issue type to human-readable description. -/
def formatIssueType (issueType : String) : String :=
  (jsGet
    [("security_scan_removed", "Security scan step removed from pipeline"),
     ("permission_escalation", "Pipeline permissions escalated (read → write/admin)"),
     ("secrets_exposure", "Secrets usage pattern changed or exposed in logs"),
     ("approval_bypassed", "Manual approval step removed or bypassed"),
     ("execution_order_changed", "Security-critical step execution order changed")]
    issueType).getD issueType

/-- Formatted security issue. -/
structure FormattedIssue where
  id : String
  type : String
  severity : String
  description : String
  step : String
  formattedType : String
deriving DecidableEq

/-- Format a security issue for display. -/
def formatSecurityIssue (issue : SecurityIssue) : FormattedIssue :=
  { id := issue.id
    type := issue.type
    severity := issue.severity
    description := if issue.description ≠ "" then issue.description
      else formatIssueType issue.type
    step := issue.step
    formattedType := formatIssueType issue.type }

/-- Format multiple security issues (the non-array guard is met by typing). -/
def formatSecurityIssues (issues : List SecurityIssue) : List FormattedIssue :=
  issues.map formatSecurityIssue

/-- Stored analysis as the report and storage layers see it (the fields
`formatDriftAnalysis` and the trend computation consume). -/
structure StoredAnalysis where
  id : String
  pipelineName : String
  driftScore : ℚ
  riskLevel : String
  timestamp : String
  issues : List SecurityIssue
deriving DecidableEq

/-- Score trend against the previous analysis of the same pipeline. -/
structure ScoreTrend where
  change : String
  changePercent : String
  direction : String
  previousScore : ℚ
deriving DecidableEq

/-- Calculate the score trend from the analysis history. -/
def calculateScoreTrend (currentAnalysis : StoredAnalysis)
    (history : List StoredAnalysis) : Option ScoreTrend :=
  if history.length < 2 then none
  else
    match history.find? (fun a =>
      decide (a.pipelineName = currentAnalysis.pipelineName) &&
      !(decide (a.id = currentAnalysis.id)) &&
      strLt a.timestamp currentAnalysis.timestamp) with
    | none => none
    | some previousAnalysis =>
      let change := currentAnalysis.driftScore - previousAnalysis.driftScore
      let changePercent :=
        if previousAnalysis.driftScore > 0 then
          ratToFixed 1 (change / previousAnalysis.driftScore * 100)
        else ratToFixed 1 change
      some {
        change := if change > 0 then "+" ++ ratToFixed 1 change else ratToFixed 1 change
        changePercent := if change > 0 then "+" ++ changePercent ++ "%"
          else changePercent ++ "%"
        direction := if change > 0 then "up" else if change < 0 then "down" else "neutral"
        previousScore := previousAnalysis.driftScore }

/-- Formatted drift analysis returned by `POST /analyze`. -/
structure FormattedAnalysis where
  id : String
  pipelineName : String
  driftScore : ℚ
  riskLevel : String
  timestamp : String
  issues : List FormattedIssue
  trend : Option ScoreTrend
deriving DecidableEq

/-- Format a drift analysis for the API response (the null-analysis guard
is met by typing). -/
def formatDriftAnalysis (analysis : StoredAnalysis)
    (history : List StoredAnalysis) : FormattedAnalysis :=
  { id := analysis.id
    pipelineName := analysis.pipelineName
    driftScore := analysis.driftScore
    riskLevel := analysis.riskLevel
    timestamp := analysis.timestamp
    issues := formatSecurityIssues analysis.issues
    trend := calculateScoreTrend analysis history }

/-! ## Request handlers (src: api/driftRoutes.js) -/

/-- Response of the `POST /train` handler, as far as the embedding tracks
it: the HTTP status, the `errors` field of the JSON body when present, and
the model passed to `saveModel` when that call is reached. -/
structure TrainResponse where
  status : ℕ
  errors : Option (List String)
  savedModel : Option TrainedModel

/-- Model of the `POST /train` handler over the per-log processing
outcomes: each submitted baseline log either fails parse / validation /
feature extraction with its per-log message (`Sum.inl`), or yields a
feature vector (`Sum.inr`). An empty `baselineLogs` array takes the
invalid-request branch, whose body carries no `errors` field. -/
noncomputable def trainHandler (outcomes : List (String ⊕ List ℚ))
    (modelName : Option String) : TrainResponse :=
  if outcomes.length = 0 then { status := 400, errors := none, savedModel := none }
  else
    let errors := outcomes.filterMap (fun o =>
      match o with | .inl e => some e | .inr _ => none)
    let featureVectors := outcomes.filterMap (fun o =>
      match o with | .inr v => some v | .inl _ => none)
    if featureVectors.length = 0 then
      { status := 400, errors := some errors, savedModel := none }
    else if featureVectors.length < 2 then
      { status := 400, errors := some errors, savedModel := none }
    else
      match trainBaselineModel featureVectors modelName with
      | none => { status := 500, errors := none, savedModel := none }
      | some model =>
        { status := 200
          errors := if errors.length > 0 then some errors else none
          savedModel := some model }

/-- Response of the `POST /analyze` handler: status, body, and the
analysis persisted to the store, if any. -/
structure AnalyzeResponse where
  status : ℕ
  body : Option FormattedAnalysis
  stored : Option StoredAnalysis

/-- Model of the `POST /analyze` handler from the point where drift
detection has succeeded (steps 4 to 6 of the source): attempt to store the
analysis — a `storeAnalysis` failure is swallowed with a logged warning —
then fetch recent history for the trend (a failure yields an empty
history), then respond 200 with the formatted analysis. -/
def analyzeTail (analysis : StoredAnalysis) (storeSucceeds : Bool)
    (historyOutcome : String ⊕ List StoredAnalysis) : AnalyzeResponse :=
  let stored := if storeSucceeds then some analysis else none
  let recentHistory :=
    match historyOutcome with
    | .inr h => h
    | .inl _ => []
  { status := 200
    body := some (formatDriftAnalysis analysis recentHistory)
    stored := stored }

/-! ## Concrete inputs used by witnesses and counterexamples -/

/-- Default analysis record (used only to project `Option` results). -/
def emptyAnalysis : DriftAnalysis :=
  { id := "", pipelineName := "", driftScore := 0, riskLevel := "", issues := [],
    explanations := [], zScores := [], featureVector := [] }

/-- Model whose every feature has mean 0 and standard deviation 1. -/
def unitModel : BaselineModel :=
  { features := featureNames.map (fun n => (n, ⟨0, 1⟩)) }

/-! ## Shared lemmas -/

theorem jsDedup_nodup {α : Type} [DecidableEq α] (l : List α) : (jsDedup l).Nodup := by
  have aux : ∀ (l : List α) (acc : List α), acc.Nodup →
      (l.foldl (fun acc a => if a ∈ acc then acc else acc ++ [a]) acc).Nodup := by
    intro l
    induction l with
    | nil => intro acc h; exact h
    | cons x xs ih =>
      intro acc hacc
      simp only [List.foldl_cons]
      by_cases hx : x ∈ acc
      · simpa [hx] using ih acc hacc
      · have : (acc ++ [x]).Nodup := by simp [List.nodup_append, hacc, hx]
        simpa [hx] using ih (acc ++ [x]) this
  exact aux l [] (by simp)

theorem mem_jsDedup {α : Type} [DecidableEq α] (l : List α) (a : α) :
    a ∈ jsDedup l ↔ a ∈ l := by
  have aux : ∀ (l : List α) (acc : List α),
      (a ∈ l.foldl (fun acc a => if a ∈ acc then acc else acc ++ [a]) acc ↔
        a ∈ acc ∨ a ∈ l) := by
    intro l
    induction l with
    | nil => intro acc; simp
    | cons x xs ih =>
      intro acc
      simp only [List.foldl_cons]
      by_cases hx : x ∈ acc
      · by_cases hax : a = x
        · subst hax; simp [hx, ih]
        · simp [hx, ih, hax]
      · simp only [if_neg hx]
        rw [ih]
        by_cases hax : a = x
        · subst hax; simp
        · simp [hax]
  simpa using aux l []

theorem filterMap_congr_some {α β : Type} (l : List α) (f : α → Option β) (g : α → β)
    (h : ∀ a ∈ l, f a = some (g a)) : l.filterMap f = l.map g := by
  induction l with
  | nil => rfl
  | cons x xs ih =>
    rw [List.filterMap_cons, h x (by simp), List.map_cons,
      ih (fun a ha => h a (by simp [ha]))]

/-! ## C3 — per-feature z-score -/

/-- C3 counterexample: at `stdDev = 0.1` exactly and `|value − mean| < 0.01`
(take value 0.005, mean 0) the computed z-score is 0.05, not the 0 the claim
requires for every `σ ≤ 0.1`. -/
theorem C3_counterexample :
    ((1 : ℚ)/10 ≤ 1/10) ∧ |(1 : ℚ)/200 - 0| < 1/100 ∧
      calculateZScore (1/200) 0 (1/10) ≠ 0 := by
  have habs : |(1 : ℚ)/200 - 0| = 1/200 := by
    rw [sub_zero]
    exact abs_of_nonneg (by norm_num)
  refine ⟨le_refl _, by rw [habs]; norm_num, ?_⟩
  norm_num [calculateZScore]

/-- C3 (amended): the dead-zone applies only for `stdDev < 0.1` strictly;
in every other case the z-score divides by the floored deviation
`max stdDev 0.1`. -/
theorem C3_zscore_spec (value mean stdDev : ℚ) :
    calculateZScore value mean stdDev =
      if stdDev < 1/10 ∧ |value - mean| < 1/100 then 0
      else (value - mean) / max stdDev (1/10) := by
  unfold calculateZScore
  rcases lt_or_le stdDev (1/10) with h | h
  · rw [if_pos (Or.inr h)]
    by_cases h2 : |value - mean| < 1/100
    · rw [if_pos h2, if_pos ⟨h, h2⟩]
    · rw [if_neg h2, if_neg (by rintro ⟨-, hq⟩; exact h2 hq), max_eq_right h.le]
  · have h0 : ¬ (stdDev = 0 ∨ stdDev < 1/10) := by
      rintro (h0 | h0)
      · rw [h0] at h; norm_num at h
      · exact absurd h0 (not_lt.mpr h)
    have hcond : ¬ (stdDev < 1/10 ∧ |value - mean| < 1/100) := by
      rintro ⟨h1, -⟩
      exact absurd h1 (not_lt.mpr h)
    rw [if_neg h0, if_neg hcond, max_eq_left h]

/-! ## C9 — storage failure on the persist step of `/analyze` -/

/-- C9: when `storeAnalysis` fails, the handler still responds 200 with the
formatted analysis — the same body as on the success path, formatting the
very analysis that the success path persists. -/
theorem C9_storage_failure_still_200 (analysis : StoredAnalysis)
    (historyOutcome : String ⊕ List StoredAnalysis) :
    (analyzeTail analysis false historyOutcome).status = 200 ∧
    (analyzeTail analysis false historyOutcome).body =
      some (formatDriftAnalysis analysis
        (match historyOutcome with | .inr h => h | .inl _ => [])) ∧
    (analyzeTail analysis false historyOutcome).body =
      (analyzeTail analysis true historyOutcome).body ∧
    (analyzeTail analysis true historyOutcome).stored = some analysis ∧
    (analyzeTail analysis false historyOutcome).stored = none :=
  ⟨rfl, rfl, rfl, rfl, rfl⟩

/-! ## C10 — unreachable jenkins / azure-devops detection -/

/-- C10: detection is first-match-wins and the gitlab-ci rule fires on any
truthy `stages`, which both the jenkins rule and the azure-devops rule also
require, so those two branches are unreachable: the result is always one of
the five other formats. -/
theorem C10_format_detection (json : JsVal) :
    detectFormat json ≠ "jenkins" ∧ detectFormat json ≠ "azure-devops" ∧
    detectFormat json ∈ ["github-actions", "gitlab-ci", "circleci", "standard", "generic"] := by
  have main : detectFormat json ∈
      ["github-actions", "gitlab-ci", "circleci", "standard", "generic"] := by
    cases json with
    | null => simp [detectFormat]
    | bool b => simp [detectFormat]
    | num q => simp [detectFormat]
    | str s => simp [detectFormat]
    | arr l => simp [detectFormat, getF, truthyF]
    | obj l =>
      simp only [detectFormat]
      split
      next hgh => simp
      next hgh =>
        split
        next hgl => simp
        next hgl =>
          have hst : truthyF (getF (JsVal.obj l) "stages") = false := by
            by_contra hc
            apply hgl
            have hth : truthyF (getF (JsVal.obj l) "stages") = true := by
              cases h : truthyF (getF (JsVal.obj l) "stages")
              · exact absurd h hc
              · rfl
            simp [hth]
          have hnostages : ∀ h t, getF (JsVal.obj l) "stages" ≠ some (JsVal.arr (h :: t)) := by
            intro h t heq
            rw [heq] at hst
            simp [truthyF, truthy] at hst
          split
          next hjk =>
            exfalso
            rcases hstg : getF (JsVal.obj l) "stages" with _ | v
            · rw [hstg] at hjk; simp at hjk
            · cases v with
              | arr la =>
                cases la with
                | nil => rw [hstg] at hjk; simp at hjk
                | cons h t => exact hnostages h t hstg
              | null => rw [hstg] at hjk; simp at hjk
              | bool b => rw [hstg] at hjk; simp at hjk
              | num q => rw [hstg] at hjk; simp at hjk
              | str s => rw [hstg] at hjk; simp at hjk
              | obj lo => rw [hstg] at hjk; simp at hjk
          next hjk =>
            split
            next haz =>
              exfalso
              rcases hstg : getF (JsVal.obj l) "stages" with _ | v
              · rw [hstg] at haz; simp at haz
              · cases v with
                | arr la =>
                  cases la with
                  | nil => rw [hstg] at haz; simp at haz
                  | cons h t => exact hnostages h t hstg
                | null => rw [hstg] at haz; simp at haz
                | bool b => rw [hstg] at haz; simp at haz
                | num q => rw [hstg] at haz; simp at haz
                | str s => rw [hstg] at haz; simp at haz
                | obj lo => rw [hstg] at haz; simp at haz
            next haz =>
              split
              next => simp
              next =>
                split
                next => simp
                next => simp
  have hne : ∀ s ∈ ["github-actions", "gitlab-ci", "circleci", "standard", "generic"],
      s ≠ "jenkins" ∧ s ≠ "azure-devops" := by decide
  exact ⟨(hne _ main).1, (hne _ main).2, main⟩

/-! ## C6 — securityBeforeDeploy without deploy steps -/

/-- A canonical run with one security step whose explicit execution order
(5) exceeds the number of steps. -/
def outOfRangeOrderStep : CStep :=
  { name := "security-scan", type := "other", executionOrder := 5, permissions := [],
    security := true, secrets := false, approval := false }

/-- C6 counterexample: with no deploy step, the code compares each security
step's order against `totalStepCount + 1`; a security step whose explicit
order exceeds that bound is not counted, so feature 15 (0) differs from
feature 1 (1). -/
theorem C6_counterexample :
    (∀ s ∈ [outOfRangeOrderStep], s.type ≠ "deploy") ∧
    (extractFeatures [outOfRangeOrderStep]).getD 15 0 ≠
      (extractFeatures [outOfRangeOrderStep]).getD 1 0 := by
  constructor
  · intro s hs
    simp only [List.mem_singleton] at hs
    subst hs
    simp [outOfRangeOrderStep]
  · have h15 : (extractFeatures [outOfRangeOrderStep]).getD 15 0 = 0 := by
      simp [extractFeatures, outOfRangeOrderStep, List.getD]
      norm_num
    have h1 : (extractFeatures [outOfRangeOrderStep]).getD 1 0 = 1 := by
      simp [extractFeatures, outOfRangeOrderStep, List.getD]
    rw [h15, h1]
    norm_num

/-- C6 (amended): in a run with no deploy-typed step, feature 15
(`securityBeforeDeploy`) equals feature 1 (`securityStepCount`) provided
every step's execution order is at most the number of steps — as holds
whenever orders are the synthesized 1-based positions. -/
theorem C6_no_deploy_security_count (steps : List CStep)
    (hdep : ∀ s ∈ steps, s.type ≠ "deploy")
    (hord : ∀ s ∈ steps, s.executionOrder ≤ (steps.length : ℚ)) :
    (extractFeatures steps).getD 15 0 = (extractFeatures steps).getD 1 0 := by
  have hfilter : steps.filter (fun step => decide (step.type = "deploy")) = [] := by
    rw [List.filter_eq_nil_iff]
    intro a ha
    simp only [decide_eq_true_eq]
    exact hdep a ha
  have hsec : (steps.filter (fun step => step.security)).filter
      (fun step => decide (step.executionOrder < (steps.length : ℚ) + 1)) =
      steps.filter (fun step => step.security) := by
    apply List.filter_eq_self.mpr
    intro a ha
    have ha2 : a ∈ steps := (List.mem_filter.mp ha).1
    have h1 : a.executionOrder ≤ (steps.length : ℚ) := hord a ha2
    simp only [decide_eq_true_eq]
    linarith
  unfold extractFeatures
  simp only [hfilter, List.length_nil, List.getD_cons_succ, List.getD_cons_zero,
    Nat.reduceAdd, gt_iff_lt, lt_self_iff_false, if_false]
  simp only [show ¬ ((0 : ℕ) < 0) from by omega, if_false, hsec]

/-- A canonical run with one security step at the synthesized order 1. -/
def inRangeOrderStep : CStep :=
  { name := "security-scan", type := "other", executionOrder := 1, permissions := [],
    security := true, secrets := false, approval := false }

/-- C6 witness: the amended theorem applied to a concrete one-step run. -/
theorem C6_witness :
    (extractFeatures [inRangeOrderStep]).getD 15 0 =
      (extractFeatures [inRangeOrderStep]).getD 1 0 :=
  C6_no_deploy_security_count [inRangeOrderStep]
    (by
      intro s hs
      simp only [List.mem_singleton] at hs
      subst hs
      simp [inRangeOrderStep])
    (by
      intro s hs
      simp only [List.mem_singleton] at hs
      subst hs
      norm_num [inRangeOrderStep])

/-! ## C8 — training with fewer than 2 valid vectors -/

/-- C8 counterexample: an empty `baselineLogs` array also yields fewer than
2 valid vectors, but is rejected by the non-empty-array guard, whose 400
body carries no `errors` list at all. -/
theorem C8_counterexample :
    (trainHandler [] none).status = 400 ∧
    (trainHandler [] none).errors = none ∧
    (trainHandler [] none).savedModel = none := by
  refine ⟨?_, ?_, ?_⟩ <;> simp [trainHandler]

/-- C8 (amended): for a non-empty `baselineLogs` in which fewer than 2 logs
yield a valid feature vector, the handler responds 400 with an `errors`
list holding exactly the per-log failure reasons (one per failed log), and
`saveModel` is never reached (so the persisted model is untouched; the
training branch is not entered either, as the 400 return precedes it). -/
theorem C8_train_too_few_valid (outcomes : List (String ⊕ List ℚ))
    (modelName : Option String)
    (hne : outcomes ≠ [])
    (hlt : (outcomes.filterMap (fun o =>
      match o with | .inr v => some v | .inl _ => none)).length < 2) :
    (trainHandler outcomes modelName).status = 400 ∧
    (trainHandler outcomes modelName).savedModel = none ∧
    (trainHandler outcomes modelName).errors =
      some (outcomes.filterMap (fun o =>
        match o with | .inl e => some e | .inr _ => none)) ∧
    (outcomes.filterMap (fun o =>
      match o with | .inl e => some e | .inr _ => none)).length =
      outcomes.countP (fun o => match o with | .inl _ => true | .inr _ => false) := by
  have hcount : ∀ l : List (String ⊕ List ℚ),
      (l.filterMap (fun o =>
        match o with | .inl e => some e | .inr _ => none)).length =
      l.countP (fun o => match o with | .inl _ => true | .inr _ => false) := by
    intro l
    induction l with
    | nil => rfl
    | cons x xs ih => cases x <;> simp [List.filterMap_cons, List.countP_cons, ih]
  have hlen0 : ¬ (outcomes.length = 0) := fun h => hne (List.length_eq_zero.mp h)
  simp only [trainHandler]
  rw [if_neg hlen0]
  by_cases h0 : (outcomes.filterMap (fun o =>
      match o with | .inr v => some v | .inl _ => none)).length = 0
  · rw [if_pos h0]
    exact ⟨rfl, rfl, rfl, hcount outcomes⟩
  · rw [if_neg h0, if_pos hlt]
    exact ⟨rfl, rfl, rfl, hcount outcomes⟩

/-- C8 witness: the amended theorem at a one-log submission whose log fails
validation. -/
theorem C8_witness :
    (trainHandler [Sum.inl "Log 1: validation failed"] none).status = 400 ∧
    (trainHandler [Sum.inl "Log 1: validation failed"] none).savedModel = none ∧
    (trainHandler [Sum.inl "Log 1: validation failed"] none).errors =
      some ["Log 1: validation failed"] := by
  have h := C8_train_too_few_valid [Sum.inl "Log 1: validation failed"] none
    (by simp) (by simp)
  exact ⟨h.1, h.2.1, h.2.2.1⟩

/-! ## C5 — normalized step invariants -/

theorem jsOrChain_eq_some : ∀ (l : List (Option JsVal)) (v : JsVal),
    jsOrChain l = some v → truthy v = true ∧ some v ∈ l := by
  intro l
  induction l with
  | nil => intro v h; simp [jsOrChain] at h
  | cons o rest ih =>
    intro v h
    cases o with
    | none =>
      have h2 := ih v (by simpa [jsOrChain] using h)
      exact ⟨h2.1, by simp [h2.2]⟩
    | some w =>
      by_cases hw : truthy w = true
      · rw [jsOrChain] at h
        simp only [hw, if_true] at h
        obtain rfl := Option.some.inj h
        exact ⟨hw, by simp⟩
      · rw [jsOrChain] at h
        simp only [Bool.not_eq_true] at hw
        simp only [hw, Bool.false_eq_true, if_false] at h
        have h2 := ih v h
        exact ⟨h2.1, by simp [h2.2]⟩

/-- A raw step whose `name` is an empty array (a legal JSON value) and whose
explicit `order` field is 0. -/
def emptyNameStep : JsVal := .obj [("name", .arr []), ("order", .num 0)]

/-- C5 counterexample: the normalizer accepts `{name: [], order: 0}` and
produces a step whose name is the empty string (JS coerces `[]` to `""`)
and whose executionOrder is 0, violating both the non-empty-name and the
`executionOrder ≥ 1` conjuncts of the claim. -/
theorem C5_counterexample :
    (normalizeStep emptyNameStep 0).map (fun st => (st.name, st.executionOrder)) =
      some ("", some 0) ∧ ¬ ((1 : ℚ) ≤ 0) := by
  exact ⟨rfl, by norm_num⟩

/-- Helper: the name computed from a candidate chain with a non-empty
fallback is non-empty when every candidate value is a string. -/
theorem nameChain_ne_empty (cands : List (Option JsVal)) (fb : String)
    (hfb : fb ≠ "")
    (hcands : ∀ ov ∈ cands, ∀ v, ov = some v → ∃ s, v = JsVal.str s) :
    jsString ((jsOrChain cands).getD (.str fb)) ≠ "" := by
  rcases hchain : jsOrChain cands with _ | v
  · simpa [jsString] using hfb
  · have hm := jsOrChain_eq_some _ _ hchain
    obtain ⟨s, rfl⟩ := hcands (some v) hm.2 v rfl
    have hs : s ≠ "" := by simpa [truthy] using hm.1
    simpa [jsString] using hs

/-- Helper: the synthesized fallback name is never empty. -/
theorem fallback_name_ne_empty (t : String) : ("step-" ++ t) ≠ "" := by
  intro heq
  have hdata := congrArg String.data heq
  have hshape : ("step-" ++ t).data = 's' :: 't' :: 'e' :: 'p' :: '-' :: t.data := rfl
  rw [hshape] at hdata
  exact List.noConfusion hdata

/-- C5 (amended): every step the normalizer produces carries the three
booleans (by construction) and a deduplicated permissions list; its
executionOrder is the 1-based position — hence at least 1 — whenever the
step has no explicit `executionOrder`/`order`/`index`/`run_number` field
(an explicit field is coerced by `Number(...)` and passed through
unchecked); and its name is non-empty whenever every present name-candidate
field is a string (a non-string candidate can coerce to the empty string). -/
theorem C5_step_invariants (step : JsVal) (index : ℕ) (st : NormStep)
    (h : normalizeStep step index = some st) :
    st.permissions.Nodup ∧
    ((getF step "executionOrder" = none ∧ getF step "order" = none ∧
      getF step "index" = none ∧ getF step "run_number" = none) →
      st.executionOrder = some ((index : ℚ) + 1) ∧ 1 ≤ ((index : ℚ) + 1)) ∧
    ((∀ k ∈ ["name", "id", "step", "action", "task", "label", "job"],
        ∀ v, getF step k = some v → ∃ s, v = JsVal.str s) →
      st.name ≠ "") := by
  rw [normalizeStep.eq_def] at h
  split at h
  any_goals exact Option.noConfusion h
  all_goals (
    obtain rfl := (Option.some.inj h).symm
    refine ⟨jsDedup_nodup _, ?_, ?_⟩
    · rintro ⟨h1, h2, h3, h4⟩
      refine ⟨?_, ?_⟩
      · rw [h1, h2, h3, h4]
        rfl
      · have h0 : (0 : ℚ) ≤ (index : ℚ) := Nat.cast_nonneg index
        linarith
    · intro hk
      refine nameChain_ne_empty _ _ (fallback_name_ne_empty _) ?_
      intro ov hov v hveq
      subst hveq
      simp only [List.mem_cons, List.not_mem_nil, or_false] at hov
      rcases hov with hh|hh|hh|hh|hh|hh|hh
      · exact hk "name" (by simp) v hh.symm
      · exact hk "id" (by simp) v hh.symm
      · exact hk "step" (by simp) v hh.symm
      · exact hk "action" (by simp) v hh.symm
      · exact hk "task" (by simp) v hh.symm
      · exact hk "label" (by simp) v hh.symm
      · exact hk "job" (by simp) v hh.symm)

/-- A raw step with a plain string name and no explicit order fields. -/
def plainNamedStep : JsVal := .obj [("name", .str "build")]

/-- Normalized form of `plainNamedStep`. -/
def plainNormStep : NormStep :=
  (normalizeStep plainNamedStep 0).getD ⟨"", "", none, "", [], false, false, false⟩

/-- C5 witness: the amended invariants at a concrete step. -/
theorem C5_witness :
    plainNormStep.permissions.Nodup ∧
    plainNormStep.executionOrder = some ((0 : ℕ) + 1 : ℚ) ∧
    plainNormStep.name ≠ "" := by
  have h := C5_step_invariants plainNamedStep 0 plainNormStep (by rfl)
  have horder := h.2.1 ⟨rfl, rfl, rfl, rfl⟩
  refine ⟨h.1, ?_, h.2.2 ?_⟩
  · rw [horder.1]
  · intro k hk v hv
    fin_cases hk
    · refine ⟨"build", ?_⟩
      have hg : getF plainNamedStep "name" = some (JsVal.str "build") := rfl
      rw [hg] at hv
      exact (Option.some.inj hv).symm
    all_goals (exfalso; simp [plainNamedStep, getF] at hv)

/-! ## Detector lemmas shared by C1 and C2 -/

/-- Statistics of a feature in a model, defaulting for absent features (a
valid model has no absent feature). -/
def statOf (model : BaselineModel) (n : String) : FeatureStat :=
  (jsGet model.features n).getD ⟨0, 0⟩

theorem validateModel_lookup (model : BaselineModel) (h : validateModel model = true) :
    ∀ n ∈ featureNames, jsGet model.features n = some (statOf model n) ∧
      0 ≤ (statOf model n).stdDev := by
  intro n hn
  have h2 := (List.all_eq_true.mp h) n hn
  rcases hj : jsGet model.features n with _ | f
  · rw [hj] at h2
    simp at h2
  · rw [hj] at h2
    simp only [decide_eq_true_eq] at h2
    exact ⟨by simp [statOf, hj], by simpa [statOf, hj] using h2⟩

theorem mem_featureNames_of_mem_enum {p : ℕ × String} (hp : p ∈ featureNames.enum) :
    p.2 ∈ featureNames := by
  have h1 : featureNames.enum.map Prod.snd = featureNames := List.enum_map_snd featureNames
  rw [← h1]
  exact List.mem_map_of_mem _ hp

theorem detect_zScores_eq (model : BaselineModel) (h : validateModel model = true)
    (v : List ℚ) :
    (featureNames.enum.filterMap (fun p =>
      match jsGet model.features p.2 with
      | some bf => some (p.2, calculateZScore (v.getD p.1 0) bf.mean bf.stdDev)
      | none => none)) =
    featureNames.enum.map (fun p =>
      (p.2, calculateZScore (v.getD p.1 0) (statOf model p.2).mean (statOf model p.2).stdDev)) := by
  apply filterMap_congr_some
  intro p hp
  rw [(validateModel_lookup model h p.2 (mem_featureNames_of_mem_enum hp)).1]

theorem detectDrift_eq_some (v : List ℚ) (pn : Option String) (model : BaselineModel)
    (a : DriftAnalysis) (h : detectDrift v pn model = some a) :
    validateModel model = true ∧
    a.driftScore = calculateDriftScore (featureNames.enum.filterMap (fun p =>
      match jsGet model.features p.2 with
      | some bf => some (p.2, calculateZScore (v.getD p.1 0) bf.mean bf.stdDev)
      | none => none)) ∧
    a.riskLevel = calculateRiskLevel a.driftScore ∧
    a.issues = featureNames.enum.filterMap (fun p =>
      match jsGet model.features p.2 with
      | some bf => mapToSecurityIssue p.2
          (calculateZScore (v.getD p.1 0) bf.mean bf.stdDev) (v.getD p.1 0) bf.mean
      | none => none) := by
  unfold detectDrift at h
  split at h
  next => exact Option.noConfusion h
  next h1 =>
    split at h
    next => exact Option.noConfusion h
    next h2 =>
      obtain rfl := (Option.some.inj h).symm
      refine ⟨?_, rfl, ?_, rfl⟩
      · by_cases hb : validateModel model = true
        · exact hb
        · exact absurd (by simpa using hb) h2
      · rfl

theorem calculateZScore_self (mean stdDev : ℚ) : calculateZScore mean mean stdDev = 0 := by
  unfold calculateZScore
  split_ifs with h1 h2
  · rfl
  · simp at h2
  · simp

theorem mapToSecurityIssue_zero (n : String) (cur mean : ℚ) :
    mapToSecurityIssue n 0 cur mean = none := by
  unfold mapToSecurityIssue
  rw [if_pos (by norm_num)]

theorem calculateDriftScore_formula (zf : ℕ × String → ℚ) :
    calculateDriftScore (featureNames.enum.map (fun p => (p.2, zf p))) =
    jsRound2 (min 100 (max 0 (20 *
      ((featureNames.enum.map (fun p => |zf p| * (jsGet FEATURE_WEIGHTS p.2).getD 1)).sum) /
      ((featureNames.map (fun n => (jsGet FEATURE_WEIGHTS n).getD 1)).sum)))) := by
  simp [calculateDriftScore, featureNames, FEATURE_WEIGHTS, jsGet, List.enum, List.enumFrom]
  norm_num
  congr 1
  ring_nf

theorem jsRound2_clip_nonneg (x : ℚ) : 0 ≤ jsRound2 (min 100 (max 0 x)) := by
  unfold jsRound2 jsRound
  have h1 : (0 : ℚ) ≤ min 100 (max 0 x) := le_min (by norm_num) (le_max_left 0 x)
  have h2 : (0 : ℤ) ≤ ⌊min 100 (max 0 x) * 100 + 1/2⌋ := by
    apply Int.floor_nonneg.mpr
    nlinarith
  positivity

theorem jsRound2_clip_le (x : ℚ) : jsRound2 (min 100 (max 0 x)) ≤ 100 := by
  unfold jsRound2 jsRound
  have h1 : min 100 (max 0 x) ≤ 100 := min_le_left _ _
  have h2 : ⌊min 100 (max 0 x) * 100 + 1/2⌋ ≤ 10000 := by
    have h3 : min 100 (max 0 x) * 100 + 1/2 ≤ 10000 + 1/2 := by nlinarith
    have h4 : ⌊(10000 + 1/2 : ℚ)⌋ = 10000 := by
      rw [Int.floor_eq_iff]
      constructor <;> norm_num
    calc ⌊min 100 (max 0 x) * 100 + 1/2⌋ ≤ ⌊(10000 + 1/2 : ℚ)⌋ := Int.floor_le_floor h3
      _ = 10000 := h4
  rw [div_le_iff₀ (by norm_num : (0:ℚ) < 100)]
  calc ((⌊min 100 (max 0 x) * 100 + 1/2⌋ : ℤ) : ℚ) ≤ ((10000 : ℤ) : ℚ) := by
        exact_mod_cast h2
    _ = 100 * 100 := by norm_num

theorem calculateRiskLevel_brackets (s : ℚ) :
    (s ≤ 30 → calculateRiskLevel s = "low") ∧
    (30 < s → s ≤ 50 → calculateRiskLevel s = "medium") ∧
    (50 < s → s ≤ 70 → calculateRiskLevel s = "high") ∧
    (70 < s → calculateRiskLevel s = "critical") := by
  unfold calculateRiskLevel
  refine ⟨fun h => by rw [if_pos h], fun h1 h2 => ?_, fun h1 h2 => ?_, fun h1 => ?_⟩
  · rw [if_neg (by linarith), if_pos h2]
  · rw [if_neg (by linarith), if_neg (by linarith), if_pos h2]
  · rw [if_neg (by linarith), if_neg (by linarith), if_neg (by linarith)]

/-! ## C2 — mean vector gives zero drift and no issues -/

/-- C2: a feature vector whose i-th component equals the model's mean for
the i-th feature yields driftScore 0 and no issues. -/
theorem C2_mean_vector_zero (model : BaselineModel) (pn : Option String) (v : List ℚ)
    (a : DriftAnalysis)
    (hv : ∀ p ∈ featureNames.enum, v.getD p.1 0 = (statOf model p.2).mean)
    (h : detectDrift v pn model = some a) :
    a.driftScore = 0 ∧ a.issues = [] := by
  obtain ⟨hval, hscore, hrisk, hissues⟩ := detectDrift_eq_some v pn model a h
  constructor
  · rw [hscore, detect_zScores_eq model hval v]
    have hmap : featureNames.enum.map (fun p =>
        (p.2, calculateZScore (v.getD p.1 0) (statOf model p.2).mean (statOf model p.2).stdDev)) =
        featureNames.enum.map (fun p => (p.2, (0 : ℚ))) := by
      apply List.map_congr_left
      intro p hp
      rw [hv p hp, calculateZScore_self]
    rw [hmap]
    simp [calculateDriftScore, featureNames, FEATURE_WEIGHTS, jsGet, List.enum,
      List.enumFrom, jsRound2, jsRound]
    norm_num
  · rw [hissues, List.filterMap_eq_nil_iff]
    intro p hp
    rw [(validateModel_lookup model hval p.2 (mem_featureNames_of_mem_enum hp)).1]
    show mapToSecurityIssue p.2
      (calculateZScore (v.getD p.1 0) (statOf model p.2).mean (statOf model p.2).stdDev)
      (v.getD p.1 0) (statOf model p.2).mean = none
    rw [hv p hp, calculateZScore_self]
    exact mapToSecurityIssue_zero _ _ _

/-- The feature vector equal to `unitModel`'s means (all zero). -/
def meanVector : List ℚ := List.replicate 17 0

/-- The analysis `detectDrift` produces on `meanVector` against `unitModel`. -/
def meanAnalysis : DriftAnalysis := (detectDrift meanVector none unitModel).getD emptyAnalysis

theorem meanAnalysis_eq : detectDrift meanVector none unitModel = some meanAnalysis := by
  have h1 : ¬ (meanVector.length ≠ featureNames.length) := by decide
  have h2 : ¬¬ (validateModel unitModel = true) := by decide
  unfold meanAnalysis detectDrift
  rw [if_neg h1, if_neg h2]
  rfl

/-- C2 witness: the claim theorem at the all-zero mean vector of a concrete
model. -/
theorem C2_witness : meanAnalysis.driftScore = 0 ∧ meanAnalysis.issues = [] :=
  C2_mean_vector_zero unitModel none meanVector meanAnalysis (by decide) meanAnalysis_eq

/-! ## C1 — drift score formula, range and risk brackets -/

/-- C1: the drift score returned by `detectDrift` equals the clipped,
2-decimal-rounded weighted mean of the per-feature |z|-scores, lies in
[0, 100], and the risk level is exactly the bracket function of the score:
[0,30] low, (30,50] medium, (50,70] high, (70,100] critical. -/
theorem C1_driftScore_formula (v : List ℚ) (pn : Option String) (model : BaselineModel)
    (a : DriftAnalysis) (h : detectDrift v pn model = some a) :
    a.driftScore = jsRound2 (min 100 (max 0 (20 *
      ((featureNames.enum.map (fun p =>
        |calculateZScore (v.getD p.1 0) (statOf model p.2).mean (statOf model p.2).stdDev| *
        (jsGet FEATURE_WEIGHTS p.2).getD 1)).sum) /
      ((featureNames.map (fun n => (jsGet FEATURE_WEIGHTS n).getD 1)).sum)))) ∧
    0 ≤ a.driftScore ∧ a.driftScore ≤ 100 ∧
    (a.driftScore ≤ 30 → a.riskLevel = "low") ∧
    (30 < a.driftScore → a.driftScore ≤ 50 → a.riskLevel = "medium") ∧
    (50 < a.driftScore → a.driftScore ≤ 70 → a.riskLevel = "high") ∧
    (70 < a.driftScore → a.riskLevel = "critical") := by
  obtain ⟨hval, hscore, hrisk, -⟩ := detectDrift_eq_some v pn model a h
  have hform : a.driftScore = jsRound2 (min 100 (max 0 (20 *
      ((featureNames.enum.map (fun p =>
        |calculateZScore (v.getD p.1 0) (statOf model p.2).mean (statOf model p.2).stdDev| *
        (jsGet FEATURE_WEIGHTS p.2).getD 1)).sum) /
      ((featureNames.map (fun n => (jsGet FEATURE_WEIGHTS n).getD 1)).sum)))) := by
    rw [hscore, detect_zScores_eq model hval v]
    exact calculateDriftScore_formula _
  have hbr := calculateRiskLevel_brackets a.driftScore
  refine ⟨hform, ?_, ?_, ?_, ?_, ?_, ?_⟩
  · rw [hform]; exact jsRound2_clip_nonneg _
  · rw [hform]; exact jsRound2_clip_le _
  · intro hb; rw [hrisk]; exact hbr.1 hb
  · intro hb1 hb2; rw [hrisk]; exact hbr.2.1 hb1 hb2
  · intro hb1 hb2; rw [hrisk]; exact hbr.2.2.1 hb1 hb2
  · intro hb1; rw [hrisk]; exact hbr.2.2.2 hb1

/-- C1 witness: the claim theorem at a concrete vector and model. -/
theorem C1_witness :
    0 ≤ meanAnalysis.driftScore ∧ meanAnalysis.driftScore ≤ 100 ∧
    (meanAnalysis.driftScore ≤ 30 → meanAnalysis.riskLevel = "low") := by
  have h := C1_driftScore_formula meanVector none unitModel meanAnalysis meanAnalysis_eq
  exact ⟨h.2.1, h.2.2.1, h.2.2.2.1⟩

/-! ## C4 — trained model: feature coverage and stdDev positivity -/

theorem calculateStdDev_nonneg (values : List ℚ) (mean : ℚ) :
    0 ≤ calculateStdDev values mean := by
  unfold calculateStdDev
  split_ifs
  · exact le_refl 0
  · norm_num
  · exact Real.sqrt_nonneg _

theorem adjustedStdDev_pos (values : List ℚ) (mean : ℚ) :
    0 < (if calculateStdDev values mean = 0 then (1/10 : ℝ) else calculateStdDev values mean) := by
  split_ifs with h
  · norm_num
  · exact lt_of_le_of_ne (calculateStdDev_nonneg values mean) (Ne.symm h)

/-- C4 (amended): training on a non-empty list of valid 17-vectors yields a
model with an entry for every one of the 17 feature names, and every
entry's stdDev is strictly positive — the floor of 0.1 applying only to a
single sample or zero variance. (A positive but tiny variance escapes the
floor, so stdDev is not always at least 0.1; see the counterexample.) -/
theorem C4_trained_model_features (featureVectors : List (List ℚ)) (pn : Option String)
    (h1 : featureVectors ≠ [])
    (h2 : ∀ v ∈ featureVectors, v.length = featureNames.length) :
    ∃ M, trainBaselineModel featureVectors pn = some M ∧
      ∀ n ∈ featureNames, ∃ f, jsGet M.features n = some f ∧ 0 < f.stdDev := by
  have hlen : ¬ (featureVectors.length = 0) := fun hh => h1 (List.length_eq_zero.mp hh)
  have hall : featureVectors.all (fun v => v.length = featureNames.length) = true := by
    rw [List.all_eq_true]
    intro v hv
    simpa using h2 v hv
  unfold trainBaselineModel
  rw [if_neg hlen, if_neg (by simp [hall])]
  refine ⟨_, rfl, ?_⟩
  intro n hn
  have hn2 : n ∈ ["securityScanCount", "securityStepCount", "readPermissionCount",
    "writePermissionCount", "adminPermissionCount", "secretsUsageCount",
    "approvalStepCount", "avgSecurityStepOrder", "permissionEscalation",
    "totalStepCount", "securityStepRatio", "normalizedFirstSecurityStep",
    "normalizedLastSecurityStep", "secretsWithWriteCount", "stepsWithAdminCount",
    "securityBeforeDeploy", "normalizedAvgStepOrder"] := hn
  fin_cases hn2 <;> exact ⟨_, rfl, adjustedStdDev_pos _ _⟩

/-- All-zero 17-feature vector. -/
def zeroVec17 : List ℚ := List.replicate 17 0

/-- 17-feature vector with a small bump (0.006) in feature 0. -/
def bumpVec17 : List ℚ := (6/1000 : ℚ) :: List.replicate 16 0

/-- Model trained on the two nearly identical vectors. -/
noncomputable def smallVarModel : TrainedModel :=
  (trainBaselineModel [zeroVec17, bumpVec17] none).getD ⟨[], 0, "", ""⟩

/-- Feature-0 statistics of `smallVarModel`. -/
noncomputable def smallVarStat : TrainedFeature :=
  (jsGet smallVarModel.features "securityScanCount").getD ⟨0, 0, 0, 0, 0⟩

theorem smallVar_stdDev :
    calculateStdDev [0, 6/1000] (calculateMean [0, 6/1000]) = (3/1000 : ℝ) := by
  have hmean : calculateMean [0, 6/1000] = 3/1000 := by
    unfold calculateMean
    norm_num
  rw [hmean]
  unfold calculateStdDev
  rw [if_neg (by norm_num), if_neg (by norm_num)]
  have harg : (((([0, (6:ℚ)/1000].map (fun val => (val - 3/1000)^2)).sum /
      (([0, (6:ℚ)/1000] : List ℚ).length : ℚ) : ℚ)) : ℝ) = (3/1000 : ℝ)^2 := by
    push_cast
    norm_num
  rw [harg, Real.sqrt_sq (by norm_num)]

/-- C4 counterexample: training on `[zeroVec17, bumpVec17]` gives feature 0
a standard deviation of exactly 0.003 — strictly positive, so the 0.1 floor
does not apply, yet below the 0.1 the claim asserts for every entry. -/
theorem C4_counterexample :
    jsGet smallVarModel.features "securityScanCount" = some smallVarStat ∧
    0 < smallVarStat.stdDev ∧ smallVarStat.stdDev < 1/10 := by
  have h1 : ¬ (([zeroVec17, bumpVec17] : List (List ℚ)).length = 0) := by decide
  have h2 : ¬¬ (([zeroVec17, bumpVec17] : List (List ℚ)).all
      (fun v => v.length = featureNames.length) = true) := by decide
  have hstat : smallVarStat.stdDev =
      (if calculateStdDev [0, 6/1000] (calculateMean [0, 6/1000]) = 0 then (1/10 : ℝ)
       else calculateStdDev [0, 6/1000] (calculateMean [0, 6/1000])) := by
    unfold smallVarStat smallVarModel trainBaselineModel
    rw [if_neg h1, if_neg (by simpa using not_not.mp h2)]
    rfl
  have hne : calculateStdDev [0, 6/1000] (calculateMean [0, 6/1000]) ≠ 0 := by
    rw [smallVar_stdDev]
    norm_num
  refine ⟨?_, ?_, ?_⟩
  · unfold smallVarStat smallVarModel trainBaselineModel
    rw [if_neg h1, if_neg (by simpa using not_not.mp h2)]
    rfl
  · rw [hstat, if_neg hne, smallVar_stdDev]
    norm_num
  · rw [hstat, if_neg hne, smallVar_stdDev]
    norm_num

/-- C4 witness: the amended theorem on a single all-zero baseline vector. -/
theorem C4_witness :
    ∃ M, trainBaselineModel [zeroVec17] none = some M ∧
      ∀ n ∈ featureNames, ∃ f, jsGet M.features n = some f ∧ 0 < f.stdDev :=
  C4_trained_model_features [zeroVec17] none (by simp) (by decide)

/-! ## C7 — pipeline diff classification -/

theorem lexLe_trans : ∀ a b c : List Char,
    lexLe a b = true → lexLe b c = true → lexLe a c = true := by
  intro a
  induction a with
  | nil => intro b c hab hbc; rfl
  | cons x xs ih =>
    intro b c hab hbc
    cases b with
    | nil => simp [lexLe] at hab
    | cons y ys =>
      cases c with
      | nil => simp [lexLe] at hbc
      | cons z zs =>
        simp only [lexLe] at hab hbc ⊢
        split_ifs at hab hbc ⊢ <;>
          first
            | rfl
            | (exact ih ys zs hab hbc)
            | omega

theorem lexLe_total : ∀ a b : List Char, (lexLe a b || lexLe b a) = true := by
  intro a
  induction a with
  | nil => intro b; rfl
  | cons x xs ih =>
    intro b
    cases b with
    | nil => simp [lexLe]
    | cons y ys =>
      simp only [lexLe]
      by_cases h1 : x.toNat < y.toNat
      · simp [h1]
      · by_cases h2 : y.toNat < x.toNat
        · simp [h1, h2]
        · simpa [h1, h2] using ih ys

theorem strLe_trans (a b c : String) (hab : strLe a b = true) (hbc : strLe b c = true) :
    strLe a c = true :=
  lexLe_trans a.data b.data c.data hab hbc

theorem strLe_total (a b : String) : (strLe a b || strLe b a) = true :=
  lexLe_total a.data b.data

theorem stepMapGet_name (steps : List CStep) (n : String) (s : CStep)
    (h : stepMapGet steps n = some s) : s.name = n := by
  unfold stepMapGet at h
  have hmem := List.mem_of_getLast?_eq_some h
  have h2 := List.mem_filter.mp hmem
  simpa using h2.2

theorem stepMapGet_isSome_iff (steps : List CStep) (n : String) :
    (stepMapGet steps n).isSome = true ↔ n ∈ steps.map (fun s => s.name) := by
  unfold stepMapGet
  rw [List.getLast?_isSome]
  constructor
  · intro hne
    obtain ⟨s, hs⟩ := List.exists_mem_of_ne_nil _ hne
    have hm := List.mem_filter.mp hs
    exact List.mem_map.mpr ⟨s, hm.1, by simpa using hm.2⟩
  · intro hmem
    obtain ⟨s, hsmem, hsname⟩ := List.mem_map.mp hmem
    exact List.ne_nil_of_mem (List.mem_filter.mpr ⟨hsmem, by simpa using hsname⟩)

theorem stepMapGet_eq_none_iff (steps : List CStep) (n : String) :
    stepMapGet steps n = none ↔ n ∉ steps.map (fun s => s.name) := by
  rw [← stepMapGet_isSome_iff]
  cases stepMapGet steps n <;> simp

theorem baselineEntryFor_name (bs cs : List CStep) (n : String) (e : DiffEntry)
    (h : baselineEntryFor bs cs n = some e) : e.name = n := by
  unfold baselineEntryFor at h
  rcases hb : stepMapGet bs n with _ | b
  · rw [hb] at h
    exact Option.noConfusion h
  · rw [hb] at h
    rcases hc : stepMapGet cs n with _ | c <;> rw [hc] at h <;>
      (obtain rfl := Option.some.inj h; rfl)

theorem currentEntryFor_name (bs cs : List CStep) (n : String) (e : DiffEntry)
    (h : currentEntryFor bs cs n = some e) : e.name = n := by
  unfold currentEntryFor at h
  rcases hc : stepMapGet cs n with _ | c
  · rw [hc] at h
    exact Option.noConfusion h
  · rw [hc] at h
    rcases hb : stepMapGet bs n with _ | b <;> rw [hb] at h <;>
      (obtain rfl := Option.some.inj h; rfl)

theorem baselineEntryFor_isSome_iff (bs cs : List CStep) (n : String) :
    (baselineEntryFor bs cs n).isSome = true ↔ n ∈ bs.map (fun s => s.name) := by
  rw [← stepMapGet_isSome_iff]
  unfold baselineEntryFor
  rcases stepMapGet bs n with _ | b
  · simp
  · rcases stepMapGet cs n with _ | c <;> simp

theorem currentEntryFor_isSome_iff (bs cs : List CStep) (n : String) :
    (currentEntryFor bs cs n).isSome = true ↔ n ∈ cs.map (fun s => s.name) := by
  rw [← stepMapGet_isSome_iff]
  unfold currentEntryFor
  rcases stepMapGet cs n with _ | c
  · simp
  · rcases stepMapGet bs n with _ | b <;> simp

theorem countP_filterMap_keyed {β : Type} (names : List String) (hnd : names.Nodup)
    (f : String → Option β) (key : β → String)
    (hf : ∀ n e, f n = some e → key e = n) (n : String) :
    ((names.filterMap f).countP (fun e => decide (key e = n))) =
      if n ∈ names ∧ (f n).isSome = true then 1 else 0 := by
  induction names with
  | nil => simp
  | cons x xs ih =>
    have hx : x ∉ xs := (List.nodup_cons.mp hnd).1
    have ih2 := ih (List.nodup_cons.mp hnd).2
    rcases hfx : f x with _ | e
    · rw [List.filterMap_cons_none hfx, ih2]
      by_cases hn : n = x
      · subst hn
        simp [hx, hfx]
      · simp [hn]
    · rw [List.filterMap_cons_some hfx, List.countP_cons, ih2]
      have hkey : key e = x := hf x e hfx
      by_cases hn : n = x
      · subst hn
        simp [hx, hkey, hfx]
      · have hxn : ¬ x = n := fun hh => hn hh.symm
        simp [hn, hkey, hxn]

theorem mem_map_key_filterMap {β : Type} (names : List String)
    (f : String → Option β) (key : β → String)
    (hf : ∀ n e, f n = some e → key e = n) (n : String) :
    (n ∈ (names.filterMap f).map key) ↔ (n ∈ names ∧ (f n).isSome = true) := by
  constructor
  · intro h
    obtain ⟨e, he, hkey⟩ := List.mem_map.mp h
    obtain ⟨m, hm, hfm⟩ := List.mem_filterMap.mp he
    obtain rfl : m = n := by rw [← hf m e hfm, hkey]
    exact ⟨hm, by simp [hfm]⟩
  · rintro ⟨hmem, hsome⟩
    obtain ⟨e, he⟩ := Option.isSome_iff_exists.mp hsome
    exact List.mem_map.mpr ⟨e, List.mem_filterMap.mpr ⟨n, hmem, he⟩, hf n e he⟩

theorem filterMap_keyed_status {β : Type} (names : List String)
    (f : String → Option β) (key : β → String)
    (hf : ∀ n e, f n = some e → key e = n) (n : String) :
    ∀ e ∈ names.filterMap f, key e = n → f n = some e := by
  intro e he hkey
  obtain ⟨m, hm, hfm⟩ := List.mem_filterMap.mp he
  obtain rfl : m = n := by rw [← hf m e hfm, hkey]
  exact hfm

theorem baselineEntryFor_removed (bs cs : List CStep) (n : String) (b : CStep)
    (hb : stepMapGet bs n = some b) (hc : stepMapGet cs n = none) :
    baselineEntryFor bs cs n = some ⟨n, "removed", b.security⟩ := by
  unfold baselineEntryFor
  rw [hb, hc]

theorem baselineEntryFor_unchanged (bs cs : List CStep) (n : String) (b c : CStep)
    (hb : stepMapGet bs n = some b) (hc : stepMapGet cs n = some c) :
    baselineEntryFor bs cs n = some ⟨n, "unchanged", b.security⟩ := by
  unfold baselineEntryFor
  rw [hb, hc]

theorem baselineEntryFor_absent (bs cs : List CStep) (n : String)
    (hb : stepMapGet bs n = none) : baselineEntryFor bs cs n = none := by
  unfold baselineEntryFor
  rw [hb]

theorem currentEntryFor_added (bs cs : List CStep) (n : String) (c : CStep)
    (hb : stepMapGet bs n = none) (hc : stepMapGet cs n = some c) :
    currentEntryFor bs cs n = some ⟨n, "added", c.security⟩ := by
  unfold currentEntryFor
  rw [hb, hc]

theorem currentEntryFor_both (bs cs : List CStep) (n : String) (b c : CStep)
    (hb : stepMapGet bs n = some b) (hc : stepMapGet cs n = some c) :
    currentEntryFor bs cs n =
      some ⟨n, if stepModified b c then "modified" else "unchanged", c.security⟩ := by
  unfold currentEntryFor
  rw [hb, hc]

theorem currentEntryFor_absent (bs cs : List CStep) (n : String)
    (hc : stepMapGet cs n = none) : currentEntryFor bs cs n = none := by
  unfold currentEntryFor
  rw [hc]

/-- C7: the pipeline diff classifies each distinct step name exactly once
per side it occurs on — removed when only in the baseline, added when only
in the current, unchanged on the baseline side and modified-or-unchanged on
the current side when in both — both returned lists are sorted by name, and
the union of names across the two returned sides equals the union of
distinct names of the two inputs. -/
theorem C7_diff_classification (bs cs : List CStep) :
    (List.Pairwise (fun a b : DiffEntry => strLe a.name b.name = true)
      (generatePipelineComparison bs cs).1) ∧
    (List.Pairwise (fun a b : DiffEntry => strLe a.name b.name = true)
      (generatePipelineComparison bs cs).2) ∧
    (∀ n, n ∈ bs.map (fun s => s.name) → n ∉ cs.map (fun s => s.name) →
      ((generatePipelineComparison bs cs).1.countP (fun e => decide (e.name = n)) = 1 ∧
       (∀ e ∈ (generatePipelineComparison bs cs).1, e.name = n → e.status = "removed") ∧
       (generatePipelineComparison bs cs).2.countP (fun e => decide (e.name = n)) = 0)) ∧
    (∀ n, n ∉ bs.map (fun s => s.name) → n ∈ cs.map (fun s => s.name) →
      ((generatePipelineComparison bs cs).2.countP (fun e => decide (e.name = n)) = 1 ∧
       (∀ e ∈ (generatePipelineComparison bs cs).2, e.name = n → e.status = "added") ∧
       (generatePipelineComparison bs cs).1.countP (fun e => decide (e.name = n)) = 0)) ∧
    (∀ n b c, stepMapGet bs n = some b → stepMapGet cs n = some c →
      ((generatePipelineComparison bs cs).1.countP (fun e => decide (e.name = n)) = 1 ∧
       (∀ e ∈ (generatePipelineComparison bs cs).1, e.name = n → e.status = "unchanged") ∧
       (generatePipelineComparison bs cs).2.countP (fun e => decide (e.name = n)) = 1 ∧
       (∀ e ∈ (generatePipelineComparison bs cs).2, e.name = n →
         e.status = (if stepModified b c then "modified" else "unchanged")))) ∧
    (∀ n, (n ∈ ((generatePipelineComparison bs cs).1.map (fun e => e.name)) ∨
           n ∈ ((generatePipelineComparison bs cs).2.map (fun e => e.name))) ↔
          (n ∈ bs.map (fun s => s.name) ∨ n ∈ cs.map (fun s => s.name))) := by
  have hnd : (diffAllNames bs cs).Nodup := jsDedup_nodup _
  have hBperm := List.mergeSort_perm
    ((diffAllNames bs cs).filterMap (baselineEntryFor bs cs))
    (fun a b : DiffEntry => strLe a.name b.name)
  have hCperm := List.mergeSort_perm
    ((diffAllNames bs cs).filterMap (currentEntryFor bs cs))
    (fun a b : DiffEntry => strLe a.name b.name)
  have hallmem : ∀ n, n ∈ diffAllNames bs cs ↔
      (n ∈ bs.map (fun s => s.name) ∨ n ∈ cs.map (fun s => s.name)) := by
    intro n
    unfold diffAllNames
    rw [mem_jsDedup, List.mem_append]
  have hBcount := countP_filterMap_keyed (diffAllNames bs cs) hnd
    (baselineEntryFor bs cs) (fun e => e.name) (baselineEntryFor_name bs cs)
  have hCcount := countP_filterMap_keyed (diffAllNames bs cs) hnd
    (currentEntryFor bs cs) (fun e => e.name) (currentEntryFor_name bs cs)
  simp only [generatePipelineComparison]
  refine ⟨?_, ?_, ?_, ?_, ?_, ?_⟩
  · exact @List.sorted_mergeSort DiffEntry (fun a b => strLe a.name b.name)
      (fun a b c => strLe_trans a.name b.name c.name)
      (fun a b => strLe_total a.name b.name) _
  · exact @List.sorted_mergeSort DiffEntry (fun a b => strLe a.name b.name)
      (fun a b c => strLe_trans a.name b.name c.name)
      (fun a b => strLe_total a.name b.name) _
  · intro n hb hc
    have hcnone : stepMapGet cs n = none := (stepMapGet_eq_none_iff cs n).mpr hc
    obtain ⟨b, hbval⟩ := Option.isSome_iff_exists.mp ((stepMapGet_isSome_iff bs n).mpr hb)
    have hBn : baselineEntryFor bs cs n = some ⟨n, "removed", b.security⟩ :=
      baselineEntryFor_removed bs cs n b hbval hcnone
    have hCn : currentEntryFor bs cs n = none := currentEntryFor_absent bs cs n hcnone
    refine ⟨?_, ?_, ?_⟩
    · rw [hBperm.countP_eq, hBcount n, if_pos ⟨(hallmem n).mpr (Or.inl hb), by simp [hBn]⟩]
    · intro e he hen
      have he2 := hBperm.mem_iff.mp he
      have hfe := filterMap_keyed_status (diffAllNames bs cs) (baselineEntryFor bs cs)
        (fun e => e.name) (baselineEntryFor_name bs cs) n e he2 hen
      rw [hBn] at hfe
      obtain rfl := Option.some.inj hfe
      rfl
    · rw [hCperm.countP_eq, hCcount n, if_neg]
      rintro ⟨-, hs⟩
      rw [hCn] at hs
      simp at hs
  · intro n hb hc
    have hbnone : stepMapGet bs n = none := (stepMapGet_eq_none_iff bs n).mpr hb
    obtain ⟨c, hcval⟩ := Option.isSome_iff_exists.mp ((stepMapGet_isSome_iff cs n).mpr hc)
    have hCn : currentEntryFor bs cs n = some ⟨n, "added", c.security⟩ :=
      currentEntryFor_added bs cs n c hbnone hcval
    have hBn : baselineEntryFor bs cs n = none := baselineEntryFor_absent bs cs n hbnone
    refine ⟨?_, ?_, ?_⟩
    · rw [hCperm.countP_eq, hCcount n, if_pos ⟨(hallmem n).mpr (Or.inr hc), by simp [hCn]⟩]
    · intro e he hen
      have he2 := hCperm.mem_iff.mp he
      have hfe := filterMap_keyed_status (diffAllNames bs cs) (currentEntryFor bs cs)
        (fun e => e.name) (currentEntryFor_name bs cs) n e he2 hen
      rw [hCn] at hfe
      obtain rfl := Option.some.inj hfe
      rfl
    · rw [hBperm.countP_eq, hBcount n, if_neg]
      rintro ⟨-, hs⟩
      rw [hBn] at hs
      simp at hs
  · intro n b c hbval hcval
    have hb : n ∈ bs.map (fun s => s.name) :=
      (stepMapGet_isSome_iff bs n).mp (by simp [hbval])
    have hc : n ∈ cs.map (fun s => s.name) :=
      (stepMapGet_isSome_iff cs n).mp (by simp [hcval])
    have hBn : baselineEntryFor bs cs n = some ⟨n, "unchanged", b.security⟩ :=
      baselineEntryFor_unchanged bs cs n b c hbval hcval
    have hCn : currentEntryFor bs cs n =
        some ⟨n, if stepModified b c then "modified" else "unchanged", c.security⟩ :=
      currentEntryFor_both bs cs n b c hbval hcval
    refine ⟨?_, ?_, ?_, ?_⟩
    · rw [hBperm.countP_eq, hBcount n, if_pos ⟨(hallmem n).mpr (Or.inl hb), by simp [hBn]⟩]
    · intro e he hen
      have he2 := hBperm.mem_iff.mp he
      have hfe := filterMap_keyed_status (diffAllNames bs cs) (baselineEntryFor bs cs)
        (fun e => e.name) (baselineEntryFor_name bs cs) n e he2 hen
      rw [hBn] at hfe
      obtain rfl := Option.some.inj hfe
      rfl
    · rw [hCperm.countP_eq, hCcount n, if_pos ⟨(hallmem n).mpr (Or.inr hc), by simp [hCn]⟩]
    · intro e he hen
      have he2 := hCperm.mem_iff.mp he
      have hfe := filterMap_keyed_status (diffAllNames bs cs) (currentEntryFor bs cs)
        (fun e => e.name) (currentEntryFor_name bs cs) n e he2 hen
      rw [hCn] at hfe
      obtain rfl := Option.some.inj hfe
      rfl
  · intro n
    have hBm := (hBperm.map (fun e : DiffEntry => e.name)).mem_iff (a := n)
    have hCm := (hCperm.map (fun e : DiffEntry => e.name)).mem_iff (a := n)
    rw [hBm, hCm,
      mem_map_key_filterMap (diffAllNames bs cs) (baselineEntryFor bs cs)
        (fun e => e.name) (baselineEntryFor_name bs cs) n,
      mem_map_key_filterMap (diffAllNames bs cs) (currentEntryFor bs cs)
        (fun e => e.name) (currentEntryFor_name bs cs) n,
      baselineEntryFor_isSome_iff, currentEntryFor_isSome_iff]
    constructor
    · rintro (⟨-, h2⟩ | ⟨-, h2⟩)
      · exact Or.inl h2
      · exact Or.inr h2
    · rintro (h | h)
      · exact Or.inl ⟨(hallmem n).mpr (Or.inl h), h⟩
      · exact Or.inr ⟨(hallmem n).mpr (Or.inr h), h⟩

/-- Baseline steps of the spec's diff scenario: A (read), B, C. -/
def exBaseSteps : List CStep :=
  [⟨"A", "other", 1, ["read"], false, false, false⟩,
   ⟨"B", "other", 2, [], false, false, false⟩,
   ⟨"C", "other", 3, [], false, false, false⟩]

/-- Current steps of the spec's diff scenario: A (read, write), B, D. -/
def exCurSteps : List CStep :=
  [⟨"A", "other", 1, ["read", "write"], false, false, false⟩,
   ⟨"B", "other", 2, [], false, false, false⟩,
   ⟨"D", "other", 3, [], false, false, false⟩]

/-- C7 witness: the claim theorem at the spec's diff scenario, step C. -/
theorem C7_witness :
    ((generatePipelineComparison exBaseSteps exCurSteps).1.countP
      (fun e => decide (e.name = "C")) = 1) ∧
    (∀ e ∈ (generatePipelineComparison exBaseSteps exCurSteps).1,
      e.name = "C" → e.status = "removed") ∧
    ((generatePipelineComparison exBaseSteps exCurSteps).2.countP
      (fun e => decide (e.name = "C")) = 0) := by
  have h := C7_diff_classification exBaseSteps exCurSteps
  exact h.2.2.1 "C" (by decide) (by decide)
